import Mathlib

/-!
Verification of the omni-cli record store and selector against its
natural-language specification.  Text is modelled as `List Char`; each
definition is a direct translation of the corresponding Python function in
`src/chat.py`, `src/project.py`, `src/namespace.py` or `src/main.py`.
-/

set_option linter.unusedVariables false
set_option maxRecDepth 100000

abbrev Str := List Char

def strLit (s : String) : Str := s.data

/-- Python `str.strip()` whitespace class (ASCII part). -/
def isPySpace (c : Char) : Bool :=
  c = ' ' || c = '\t' || c = '\n' || c = '\r' || c = '\x0b' || c = '\x0c'

/-- Python `s.strip()`: drop leading and trailing whitespace. -/
def stripChars (s : Str) : Str :=
  ((s.dropWhile isPySpace).reverse.dropWhile isPySpace).reverse

/-- Python `s.lower()` (ASCII part). -/
def lowerStr (s : Str) : Str := s.map Char.toLower

/-- Text acceptable for a `([^)]+)` regex group: non-empty, no closing paren. -/
def parenOk (s : Str) : Prop := s ≠ [] ∧ ')' ∉ s

instance (s : Str) : Decidable (parenOk s) := by unfold parenOk; infer_instance

/-! ## Transcript codec (src/chat.py)

`add_message` appends one encoded block per message; `load_chat` recovers the
messages with the regex
`## Message \d+ - (User|Assistant)(?: \(([^)]+)\))? \(([^)]+)\)\n(.*?)(?=## Message|\Z)`
run with `re.findall` under `re.DOTALL`.  The scanner below mirrors that
regex search, including its backtracking over the optional provider group. -/

/-- The literal `## Message` that anchors every section header (10 chars). -/
def msgLit : Str := strLit "## Message"

/-- Split `s` at the first occurrence of `msgLit`:
`some (p, t)` with `s = p ++ msgLit ++ t`, or `none` if no occurrence. -/
def splitAtLit : Str → Option (Str × Str)
  | [] => none
  | c :: cs =>
    if List.isPrefixOf msgLit (c :: cs) then some ([], (c :: cs).drop 10)
    else (splitAtLit cs).map (fun pt => (c :: pt.1, pt.2))

/-- One ` \(([^)]+)\)` group: leading space, open paren, maximal non-`)` run
(non-empty), closing paren.  Returns the group and the remainder. -/
def parseParen (u : Str) : Option (Str × Str) :=
  match u with
  | ' ' :: '(' :: r =>
    let g := r.takeWhile (fun c => !(c == ')'))
    match r.dropWhile (fun c => !(c == ')')) with
    | ')' :: r2 => if g = [] then none else some (g, r2)
    | _ => none
  | _ => none

/-- The `(?: \(([^)]+)\))? \(([^)]+)\)\n` part: first try the optional
provider group followed by the mandatory timestamp group, then fall back to
the mandatory group alone (the regex engine's backtracking order). -/
def parseParens (u : Str) : Option (Option Str × Str × Str) :=
  match parseParen u with
  | none => none
  | some (a, u1) =>
    match parseParen u1 with
    | some (b, '\n' :: body) => some (some a, b, body)
    | _ =>
      match u1 with
      | '\n' :: body => some (none, a, body)
      | _ => none

/-- The `(User|Assistant)` alternation. -/
def pickRole (t : Str) : Option (Str × Str) :=
  if List.isPrefixOf (strLit "User") t then some (strLit "User", t.drop 4)
  else if List.isPrefixOf (strLit "Assistant") t then some (strLit "Assistant", t.drop 9)
  else none

/-- Parse the rest of a section header after the `## Message` literal:
a space, `\d+`, ` - `, the role, the paren groups and the final newline.
Returns `(role, provider?, timestamp, text after the newline)`. -/
def parseHeaderTail (t : Str) : Option (Str × Option Str × Str × Str) :=
  match t with
  | ' ' :: t1 =>
    match t1.takeWhile Char.isDigit, t1.dropWhile Char.isDigit with
    | [], _ => none
    | _ :: _, ' ' :: '-' :: ' ' :: t3 =>
      match pickRole t3 with
      | none => none
      | some (role, t4) =>
        match parseParens t4 with
        | none => none
        | some (prov, ts, body) => some (role, prov, ts, body)
    | _, _ => none
  | _ => none

/-- A message as recovered by `load_chat`'s parser (provider group may be
absent). -/
structure DMsg where
  role : Str
  content : Str
  provider : Option Str
  timestamp : Str
deriving DecidableEq, Repr

/-- The scan loop of `re.findall`, fuelled (fuel `≥` text length suffices):
at each `## Message` occurrence try the header; on success take the lazy body
up to the next occurrence, on failure resume searching after the occurrence. -/
def scanAt : Nat → Str → List DMsg
  | 0, _ => []
  | fuel + 1, t =>
    match parseHeaderTail t with
    | none =>
      match splitAtLit t with
      | none => []
      | some (_, t2) => scanAt fuel t2
    | some (role, prov, ts, after) =>
      match splitAtLit after with
      | none => [⟨lowerStr role, stripChars after, prov, ts⟩]
      | some (body, t2) => ⟨lowerStr role, stripChars body, prov, ts⟩ :: scanAt fuel t2

/-- All messages recovered from a transcript text. -/
def scanMsgs (s : Str) : List DMsg :=
  match splitAtLit s with
  | none => []
  | some (_, tail) => scanAt tail.length tail

/-- `load_chat`'s message recovery: parse and apply the chat's own provider
as fallback when the header carried none (`provider if provider else ...`). -/
def decodeMessages (fb : Option Str) (s : Str) : List DMsg :=
  (scanMsgs s).map (fun d =>
    { d with provider := match d.provider with | some p => some p | none => fb })

/-- Decimal digit character. -/
def digitChar (d : Nat) : Char := Char.ofNat (48 + d)

/-- Decimal rendering of a natural number, fuelled. -/
def natDigitsCore : Nat → Nat → Str → Str
  | 0, _, acc => acc
  | fuel + 1, n, acc =>
    let d := digitChar (n % 10)
    if n < 10 then d :: acc else natDigitsCore fuel (n / 10) (d :: acc)

/-- Decimal rendering of a natural number (Python `f"{n}"`). -/
def natDigits (n : Nat) : Str := natDigitsCore (n + 1) n []

/-- `timestamp[:19].replace('T', ' ')` from `add_message`. -/
def fmtTs (ts : Str) : Str := (ts.take 19).map (fun c => if c = 'T' then ' ' else c)

/-- A chat message as stored in memory by `add_message`. -/
structure Message where
  role : Str
  content : Str
  provider : Str
  timestamp : Str
deriving DecidableEq, Repr

/-- The block `add_message` appends to the transcript file for one message:
a numbered role header (provider shown only on the non-user branch), the
formatted timestamp and the content followed by a blank line. -/
def encodeMessage (n : Nat) (m : Message) : Str :=
  if m.role = strLit "user" then
    strLit "## Message " ++ natDigits n ++ strLit " - User (" ++ fmtTs m.timestamp
      ++ strLit ")\n" ++ m.content ++ strLit "\n\n"
  else
    strLit "## Message " ++ natDigits n ++ strLit " - Assistant (" ++ m.provider
      ++ strLit ") (" ++ fmtTs m.timestamp ++ strLit ")\n" ++ m.content ++ strLit "\n\n"

/-- The parsed form the scanner recovers from `encodeMessage n m`. -/
def rawDecodedOf (m : Message) : DMsg :=
  if m.role = strLit "user" then
    ⟨strLit "user", m.content, none, fmtTs m.timestamp⟩
  else
    ⟨strLit "assistant", m.content, some m.provider, fmtTs m.timestamp⟩

/-- The decoded form after `load_chat` applies the provider fallback. -/
def finalDecodedOf (fb : Option Str) (m : Message) : DMsg :=
  if m.role = strLit "user" then
    ⟨strLit "user", m.content, fb, fmtTs m.timestamp⟩
  else
    ⟨strLit "assistant", m.content, some m.provider, fmtTs m.timestamp⟩

/-- A message the format round-trips: a real role, strip-invariant content
with no embedded `## Message` literal, and paren-safe provider/timestamp. -/
def benignMsg (m : Message) : Prop :=
  (m.role = strLit "user" ∨ m.role = strLit "assistant") ∧
  stripChars m.content = m.content ∧
  splitAtLit m.content = none ∧
  parenOk (fmtTs m.timestamp) ∧
  parenOk m.provider

instance (m : Message) : Decidable (benignMsg m) := by unfold benignMsg; infer_instance

/-! ## Association-list index helpers

A Python dict keyed by id, preserving insertion order, is modelled as an
ordered association list with unique keys. -/

def lookupKey {α : Type} : List (Str × α) → Str → Option α
  | [], _ => none
  | (k, v) :: r, q => if k = q then some v else lookupKey r q

def hasKey {α : Type} (l : List (Str × α)) (q : Str) : Bool :=
  (lookupKey l q).isSome

def updateKey {α : Type} (l : List (Str × α)) (q : Str) (f : α → α) : List (Str × α) :=
  l.map (fun kv => if kv.1 = q then (kv.1, f kv.2) else kv)

def removeKey {α : Type} : List (Str × α) → Str → List (Str × α)
  | [], _ => []
  | (k, v) :: r, q => if k = q then removeKey r q else (k, v) :: removeKey r q

/-! ## ChatManager: conversation creation and appends (src/chat.py) -/

/-- In-memory chat dict built by `create_chat` / mutated by `add_message`. -/
structure Chat where
  chat_id : Str
  name : Str
  provider : Str
  created_at : Str
  updated_at : Str
  message_count : Nat
  messages : List Message
  project : Option Str
deriving DecidableEq, Repr

/-- A chat together with the contents of its backing transcript file. -/
structure ChatFile where
  chat : Chat
  file : Str
deriving DecidableEq, Repr

/-- The frontmatter and title `create_chat` writes once at file creation
(`message_count: 0` is never rewritten afterwards). -/
def chatHeaderText (c : Chat) : Str :=
  strLit "---\nchat_id: " ++ c.chat_id ++ strLit "\nname: " ++ c.name
    ++ strLit "\nprovider: " ++ c.provider ++ strLit "\ncreated_at: " ++ c.created_at
    ++ strLit "\nupdated_at: " ++ c.updated_at ++ strLit "\nmessage_count: 0\nproject: "
    ++ (match c.project with | some p => p | none => strLit "null")
    ++ strLit "\n---\n\n# Chat: " ++ c.name ++ strLit "\n\n"

/-- `create_chat`: fresh metadata (provider `claude`, zero messages) and the
header written to the new file.  `chat_id`, the resolved `name` and the
timestamp are parameters (the id generator and name derivation feed them). -/
def create_chat (chat_id name now : Str) (project : Option Str) : ChatFile :=
  let c : Chat := ⟨chat_id, name, strLit "claude", now, now, 0, [], project⟩
  ⟨c, chatHeaderText c⟩

/-- `provider or chat['provider']`: `None` and the empty string both fall
back to the chat's provider. -/
def resolveProvider (chatProvider : Str) : Option Str → Str
  | none => chatProvider
  | some p => if p = [] then chatProvider else p

/-- `add_message`: bump the count, build the message, append its encoded
block to the file. -/
def add_message (cf : ChatFile) (role content : Str) (provider : Option Str)
    (now : Str) : ChatFile × Message :=
  let c := cf.chat
  let count := c.message_count + 1
  let msg : Message := ⟨role, content, resolveProvider c.provider provider, now⟩
  let c' := { c with message_count := count, updated_at := now,
                     messages := c.messages ++ [msg] }
  (⟨c', cf.file ++ encodeMessage count msg⟩, msg)

/-- One `add_message` call's arguments. -/
structure AddInput where
  role : Str
  content : Str
  provider : Option Str
  now : Str
deriving DecidableEq, Repr

/-- A sequence of completed `add_message` calls. -/
def add_all (cf : ChatFile) (inputs : List AddInput) : ChatFile :=
  inputs.foldl (fun acc i => (add_message acc i.role i.content i.provider i.now).1) cf

/-- The message `add_message` builds from one input on a chat with the given
provider. -/
def inputMsg (chatProvider : Str) (i : AddInput) : Message :=
  ⟨i.role, i.content, resolveProvider chatProvider i.provider, i.now⟩

/-- Concatenation of the blocks written for a message list, numbered from
`idx + 1` upward as `add_message` does. -/
def encodeBlocks (idx : Nat) : List Message → Str
  | [] => []
  | m :: rest => encodeMessage (idx + 1) m ++ encodeBlocks (idx + 1) rest

/-! ## ChatManager: index and load_chat (src/chat.py) -/

/-- One record of `index.json`'s `chats` mapping. -/
structure ChatIdxRec where
  chat_id : Str
  name : Str
  file_path : Str
  created_at : Str
  updated_at : Str
  provider : Str
  message_count : Nat
  project : Option Str
deriving DecidableEq, Repr

/-- Chat index plus the files on disk (path to contents). -/
structure CState where
  chats : List (Str × ChatIdxRec)
  fs : List (Str × Str)
deriving DecidableEq, Repr

/-- The lookup loop of `load_chat` / `delete_chat`: first entry, in index
order, whose key or `name` equals the query. -/
def findChatEntry : List (Str × ChatIdxRec) → Str → Option (Str × ChatIdxRec)
  | [], _ => none
  | (cid, info) :: rest, q =>
    if cid = q ∨ info.name = q then some (cid, info) else findChatEntry rest q

/-- Result of `load_chat`: the index record with messages parsed from file. -/
structure LoadedChat where
  info : ChatIdxRec
  messages : List DMsg
deriving DecidableEq, Repr

/-- `load_chat`: resolve by id-or-name in index order, fail when the backing
file is absent, otherwise parse the file with the chat's provider as
fallback. -/
def load_chat (st : CState) (q : Str) : Option LoadedChat :=
  match findChatEntry st.chats q with
  | none => none
  | some (cid, info) =>
    match lookupKey st.fs info.file_path with
    | none => none
    | some content =>
      some ⟨{ info with chat_id := cid }, decodeMessages (some info.provider) content⟩

/-! ## ProjectManager (src/project.py) -/

/-- One record of `projects.json`. -/
structure Project where
  name : Str
  id : Str
  description : Str
  namespaceRef : Option Str
  created_at : Str
  updated_at : Str
  chat_count : Int
  chats : List Str
deriving DecidableEq, Repr

/-- Project index plus the directories created under the base path. -/
structure PState where
  projects : List (Str × Project)
  dirs : List Str
deriving DecidableEq, Repr

/-- `mkdir(parents=True, exist_ok=True)`. -/
def addDir (dirs : List Str) (d : Str) : List Str :=
  if d ∈ dirs then dirs else dirs ++ [d]

/-- Python `\w` for `str` patterns (ASCII part): alphanumeric or underscore. -/
def isWordChar (c : Char) : Bool := c.isAlphanum || c = '_'

/-- `re.sub(r'[\s]+', '-', s)` as a one-pass scan: each maximal whitespace
run becomes a single hyphen (`inRun` records an already-replaced run). -/
def wsCollapse : Str → Bool → Str
  | [], _ => []
  | c :: cs, inRun =>
    if isPySpace c then
      if inRun then wsCollapse cs true else '-' :: wsCollapse cs true
    else c :: wsCollapse cs false

/-- The slug `create_project` derives:
`re.sub(r'[^\w\s-]', '', name.lower())` then `re.sub(r'[\s]+', '-', ...)`. -/
def slugify (name : Str) : Str :=
  wsCollapse ((lowerStr name).filter (fun c => isWordChar c || isPySpace c || c = '-')) false

/-- `create_project`: validate, slugify, reject duplicate slugs, create the
project directories, insert the record, save.  The returned state reflects
all mutations performed before any raise. -/
def create_project (st : PState) (name : Str) (description : Option Str)
    (nsRef : Option Str) (now : Str) : PState × Except Str Project :=
  if stripChars name = [] then
    (st, .error (strLit "Project name cannot be empty"))
  else
    let sid := slugify name
    if hasKey st.projects sid then
      (st, .error (strLit "Project '" ++ name ++ strLit "' already exists"))
    else
      let p : Project := ⟨name, sid, (match description with | some d => d | none => []),
                          nsRef, now, now, 0, []⟩
      ({ projects := st.projects ++ [(sid, p)],
         dirs := addDir (addDir st.dirs (strLit "projects/" ++ sid))
                        (strLit "projects/" ++ sid ++ strLit "/chats") },
       .ok p)

/-- `get_project`: by id key first, then by case-insensitive name scan;
returns a copy. -/
def get_project (st : PState) (q : Str) : Option Project :=
  match lookupKey st.projects q with
  | some p => some p
  | none =>
    match st.projects.find? (fun kv => lowerStr kv.2.name = lowerStr q) with
    | some kv => some kv.2
    | none => none

/-- `add_chat`: not-found is a `False` result; a chat id already in the
project's member list raises ValueError; otherwise append the id, bump
`chat_count`, touch `updated_at`. -/
def add_chat (st : PState) (q chat_id now : Str) : PState × Except Str Bool :=
  match get_project st q with
  | none => (st, .ok false)
  | some p =>
    match lookupKey st.projects p.id with
    | none => (st, .error (strLit "KeyError"))
    | some rec0 =>
      if chat_id ∈ rec0.chats then
        (st, .error (strLit "Chat '" ++ chat_id ++ strLit "' already in project '"
                      ++ p.name ++ strLit "'"))
      else
        ({ st with projects := updateKey st.projects p.id (fun r =>
            { r with chats := r.chats ++ [chat_id], chat_count := r.chat_count + 1,
                     updated_at := now }) },
         .ok true)

/-- `remove_chat`: not-found project or absent chat id give a `False`
result; otherwise remove the first occurrence and decrement `chat_count`. -/
def remove_chat (st : PState) (q chat_id now : Str) : PState × Except Str Bool :=
  match get_project st q with
  | none => (st, .ok false)
  | some p =>
    match lookupKey st.projects p.id with
    | none => (st, .error (strLit "KeyError"))
    | some rec0 =>
      if chat_id ∈ rec0.chats then
        ({ st with projects := updateKey st.projects p.id (fun r =>
            { r with chats := r.chats.erase chat_id, chat_count := r.chat_count - 1,
                     updated_at := now }) },
         .ok true)
      else (st, .ok false)

/-- `rename_project`: update `name` and `updated_at` of the resolved record. -/
def rename_project (st : PState) (q new_name now : Str) : PState × Bool :=
  match get_project st q with
  | none => (st, false)
  | some p =>
    ({ st with projects := updateKey st.projects p.id (fun r =>
        { r with name := new_name, updated_at := now }) },
     true)

/-- `delete_project`: drop the index entry; the project directory is removed
only when `delete_chats` is set. -/
def delete_project (st : PState) (q : Str) (delete_chats : Bool) : PState × Bool :=
  match get_project st q with
  | none => (st, false)
  | some p =>
    ({ projects := removeKey st.projects p.id,
       dirs := if delete_chats then
                 (st.dirs.filter (fun d => !(d == strLit "projects/" ++ p.id))).filter
                   (fun d => !(d == strLit "projects/" ++ p.id ++ strLit "/chats"))
               else st.dirs },
     true)

/-! ## NamespaceManager (src/namespace.py) -/

/-- One record of `namespace_index.json`. -/
structure NamespaceRec where
  id : Str
  name : Str
  description : Str
  created_at : Str
  updated_at : Str
  project_ids : List Str
deriving DecidableEq, Repr

/-- Namespace index. -/
structure NState where
  namespaces : List (Str × NamespaceRec)
deriving DecidableEq, Repr

/-- `get_namespace`: by id key first, then by exact name scan. -/
def get_namespace (st : NState) (q : Str) : Option NamespaceRec :=
  match lookupKey st.namespaces q with
  | some ns => some ns
  | none =>
    match st.namespaces.find? (fun kv => kv.2.name = q) with
    | some kv => some kv.2
    | none => none

/-- `add_project`: not-found is `False`; an id already present leaves the
record untouched; either way the result is `True`. -/
def add_project (st : NState) (q project_id now : Str) : NState × Bool :=
  match get_namespace st q with
  | none => (st, false)
  | some ns =>
    if project_id ∈ ns.project_ids then (st, true)
    else
      ({ namespaces := updateKey st.namespaces ns.id (fun r =>
          { r with project_ids := r.project_ids ++ [project_id], updated_at := now }) },
       true)

/-- `remove_project`: not-found is `False`; an absent id leaves the record
untouched; either way the result is `True`. -/
def remove_project (st : NState) (q project_id now : Str) : NState × Bool :=
  match get_namespace st q with
  | none => (st, false)
  | some ns =>
    if project_id ∈ ns.project_ids then
      ({ namespaces := updateKey st.namespaces ns.id (fun r =>
          { r with project_ids := r.project_ids.erase project_id, updated_at := now }) },
       true)
    else (st, true)

/-- `delete_namespace`: remove only that namespace's own index entry (its
directory is removed only when empty; member projects are never touched). -/
def delete_namespace (st : NState) (q : Str) : NState × Bool :=
  match get_namespace st q with
  | none => (st, false)
  | some ns => (⟨removeKey st.namespaces ns.id⟩, true)

/-- `rename_namespace`: reject a conflicting target name; set the new name
and `updated_at` and save; then attempt the directory rename, and on failure
revert the `name` field, save again, and re-raise.  `dirRenameFails` stands
for the filesystem rename raising. -/
def rename_namespace (st : NState) (q new_name now : Str) (dirRenameFails : Bool) :
    NState × Except Str Bool :=
  match get_namespace st q with
  | none => (st, .ok false)
  | some ns =>
    if st.namespaces.any (fun kv => kv.2.name = new_name && !(kv.1 == ns.id)) then
      (st, .error (strLit "Namespace '" ++ new_name ++ strLit "' already exists"))
    else
      let st1 : NState := ⟨updateKey st.namespaces ns.id (fun r =>
        { r with name := new_name, updated_at := now })⟩
      if dirRenameFails then
        (⟨updateKey st1.namespaces ns.id (fun r => { r with name := ns.name })⟩,
         .error (strLit "Failed to rename namespace directory"))
      else (st1, .ok true)

/-- The four managers' stores as the CLI holds them; the selector's delete
dispatch calls exactly one manager per action. -/
structure Sys where
  ns : NState
  pr : PState
deriving Repr

/-- The `/list` delete dispatch for a namespace node: only
`namespace_manager.delete_namespace` runs. -/
def sysDeleteNamespace (sys : Sys) (q : Str) : Sys × Bool :=
  let r := delete_namespace sys.ns q
  ({ sys with ns := r.1 }, r.2)

/-! ## Interactive selectors (src/main.py) -/

/-- Node kinds of the `/list` browse tree. -/
inductive LNode | nsNode | projNode | chatNode | summaryNode
deriving DecidableEq, Repr

/-- `/list` `move_up`: step back one position, clamped at 0 (no node-kind
check). -/
def list_move_up (items : List LNode) (i : Nat) : Nat :=
  if 0 < i then i - 1 else i

/-- `/list` `move_down`: step forward one position, clamped at the last item
(no node-kind check). -/
def list_move_down (items : List LNode) (i : Nat) : Nat :=
  if i < items.length - 1 then i + 1 else i

/-- A `/list` navigation event. -/
inductive LEvent | up | down
deriving DecidableEq, Repr

def list_step (items : List LNode) (i : Nat) : LEvent → Nat
  | .up => list_move_up items i
  | .down => list_move_down items i

def list_run (items : List LNode) (i : Nat) (evs : List LEvent) : Nat :=
  evs.foldl (list_step items) i

/-- Node kinds of the `/resume` list (headers and selectable chat rows). -/
inductive RNode
  | nsHeader | projHeader | standaloneProjHeader | standaloneChatHeader | chatItem
deriving DecidableEq, Repr

def isChatAt (items : List RNode) (j : Nat) : Bool :=
  items.get? j == some RNode.chatItem

/-- The `move_up` while-loop: check positions `j, j-1, ..., 0` for a chat
row. -/
def scanUp (items : List RNode) : Nat → Option Nat
  | 0 => if isChatAt items 0 then some 0 else none
  | j + 1 => if isChatAt items (j + 1) then some (j + 1) else scanUp items j

/-- `/resume` `move_up`: nearest chat row strictly before `i`, cursor
unchanged when none exists. -/
def resume_move_up (items : List RNode) (i : Nat) : Nat :=
  match i with
  | 0 => 0
  | i' + 1 =>
    match scanUp items i' with
    | some j => j
    | none => i' + 1

/-- Offset of the first chat row of a node list. -/
def firstChatOffset : List RNode → Option Nat
  | [] => none
  | RNode.chatItem :: _ => some 0
  | _ :: rest => (firstChatOffset rest).map (· + 1)

/-- `/resume` `move_down`: nearest chat row strictly after `i`, cursor
unchanged when none exists. -/
def resume_move_down (items : List RNode) (i : Nat) : Nat :=
  match firstChatOffset (items.drop (i + 1)) with
  | some k => i + 1 + k
  | none => i

/-- The initial cursor: first chat row, or 0 when the scan finds none. -/
def first_chat_index (items : List RNode) : Nat := (firstChatOffset items).getD 0

/-- A `/resume` navigation event. -/
inductive REvent | up | down
deriving DecidableEq, Repr

def resume_step (items : List RNode) (i : Nat) : REvent → Nat
  | .up => resume_move_up items i
  | .down => resume_move_down items i

def resume_run (items : List RNode) (i : Nat) (evs : List REvent) : Nat :=
  evs.foldl (resume_step items) i

/-! ## ChatManager surface (src/chat.py class body) -/

/-- The methods the `ChatManager` class defines, in source order. -/
def chatManagerMethods : List String :=
  ["__init__", "_load_index", "_save_index", "_generate_chat_id",
   "_generate_chat_name", "_get_chat_file_path", "create_chat", "add_message",
   "list_chats", "load_chat", "delete_chat", "get_conversation_context"]

/-- The methods the `ProjectManager` class defines, in source order. -/
def projectManagerMethods : List String :=
  ["__init__", "_load_projects", "_save_projects", "create_project",
   "list_projects", "get_project", "delete_project", "add_chat", "remove_chat",
   "get_project_chats", "get_chat_project", "_get_last_activity", "rename_project"]

/-- The methods the `NamespaceManager` class defines, in source order. -/
def namespaceManagerMethods : List String :=
  ["__init__", "_load_index", "_save_index", "_generate_namespace_id",
   "create_namespace", "list_namespaces", "get_namespace", "add_project",
   "remove_project", "get_namespace_projects", "delete_namespace",
   "rename_namespace"]

/-- The method the `/list` rename dispatch invokes on the chat manager for a
conversation node (main.py line 849). -/
def selectorChatRenameCallee : String := "rename_chat"

/-- Claim C10's implicit invariant: every project record's `chat_count`
equals the length of its `chats` member list. -/
def chatCountInv (st : PState) : Prop :=
  ∀ kv ∈ st.projects, kv.2.chat_count = (kv.2.chats.length : Int)

instance (st : PState) : Decidable (chatCountInv st) := by
  unfold chatCountInv; infer_instance

/-- Unique keys, as Python dicts guarantee. -/
def keysNodup {α : Type} (l : List (Str × α)) : Prop := (l.map Prod.fst).Nodup

instance {α : Type} [DecidableEq α] (l : List (Str × α)) : Decidable (keysNodup l) := by
  unfold keysNodup; infer_instance

/-! ## Basic lemmas about the text helpers -/

theorem takeWhile_app (p : Char → Bool) :
    ∀ l r : Str, (∀ c ∈ l, p c = true) → (l ++ r).takeWhile p = l ++ r.takeWhile p := by
  intro l
  induction l with
  | nil => intro r _; simp
  | cons c cs ih =>
    intro r h
    have hc : p c = true := h c (by simp)
    simp [List.takeWhile, hc, ih r (fun d hd => h d (by simp [hd]))]

theorem dropWhile_app (p : Char → Bool) :
    ∀ l r : Str, (∀ c ∈ l, p c = true) → (l ++ r).dropWhile p = r.dropWhile p := by
  intro l
  induction l with
  | nil => intro r _; simp
  | cons c cs ih =>
    intro r h
    have hc : p c = true := h c (by simp)
    simp [List.dropWhile, hc, ih r (fun d hd => h d (by simp [hd]))]

theorem dropWhile_len_le (p : Char → Bool) : ∀ l : Str, (l.dropWhile p).length ≤ l.length := by
  intro l
  induction l with
  | nil => simp
  | cons c cs ih =>
    by_cases hc : p c = true
    · simp [List.dropWhile, hc]; omega
    · simp [List.dropWhile, hc]

theorem isPrefixOf_iff (p : Str) : ∀ s : Str, List.isPrefixOf p s = true ↔ ∃ t, s = p ++ t := by
  induction p with
  | nil => intro s; simp [List.isPrefixOf]
  | cons a as ih =>
    intro s
    cases s with
    | nil =>
      simp [List.isPrefixOf]
    | cons b bs =>
      simp only [List.isPrefixOf, Bool.and_eq_true, beq_iff_eq, ih bs]
      constructor
      · rintro ⟨rfl, t, rfl⟩; exact ⟨t, rfl⟩
      · rintro ⟨t, ht⟩
        rw [List.cons_append] at ht
        cases ht
        exact ⟨rfl, t, rfl⟩

theorem isPrefixOf_app_self (p t : Str) : List.isPrefixOf p (p ++ t) = true :=
  (isPrefixOf_iff p (p ++ t)).2 ⟨t, rfl⟩

theorem isPrefixOf_app_of_le (p : Str) :
    ∀ s b : Str, p.length ≤ s.length → List.isPrefixOf p (s ++ b) = List.isPrefixOf p s := by
  induction p with
  | nil => intro s b _; simp [List.isPrefixOf]
  | cons a as ih =>
    intro s b h
    cases s with
    | nil => simp at h
    | cons c cs =>
      show (a == c && List.isPrefixOf as (cs ++ b)) = (a == c && List.isPrefixOf as cs)
      rw [ih cs b (by simp at h; omega)]

theorem msgLit_len : msgLit.length = 10 := rfl

theorem nl_not_mem_msgLit : '\n' ∉ msgLit := by decide

/-- No `## Message` occurrence can start inside a short segment containing a
newline: the literal has no newline character. -/
theorem isPrefixOf_msgLit_app_false (s b : Str) (hs : '\n' ∈ s) (hlen : s.length ≤ 10) :
    List.isPrefixOf msgLit (s ++ b) = false := by
  by_contra h
  have h' : List.isPrefixOf msgLit (s ++ b) = true := by
    cases hb : List.isPrefixOf msgLit (s ++ b) with
    | false => exact absurd hb h
    | true => rfl
  obtain ⟨t, ht⟩ := (isPrefixOf_iff msgLit (s ++ b)).1 h'
  have h1 : s = (s ++ b).take s.length := by rw [List.take_left]
  rw [ht, List.take_append_eq_append_take, msgLit_len] at h1
  have h2 : s.length - 10 = 0 := by omega
  rw [h2, List.take_zero, List.append_nil] at h1
  have h3 : '\n' ∈ msgLit.take s.length := h1 ▸ hs
  exact nl_not_mem_msgLit (List.take_subset _ _ h3)

/-! ## splitAtLit lemmas -/

theorem splitAtLit_decomp : ∀ s p t : Str, splitAtLit s = some (p, t) → s = p ++ msgLit ++ t := by
  intro s
  induction s with
  | nil => intro p t h; simp [splitAtLit] at h
  | cons c cs ih =>
    intro p t h
    by_cases hp : List.isPrefixOf msgLit (c :: cs) = true
    · rw [splitAtLit, if_pos hp] at h
      obtain ⟨u, hu⟩ := (isPrefixOf_iff msgLit (c :: cs)).1 hp
      cases h
      rw [hu, ← msgLit_len, List.drop_left]
      simpa using hu
    · rw [splitAtLit, if_neg hp] at h
      cases hsc : splitAtLit cs with
      | none => rw [hsc] at h; simp at h
      | some pt =>
        obtain ⟨p', t'⟩ := pt
        rw [hsc] at h
        simp at h
        obtain ⟨hp1, ht1⟩ := h
        have hcs := ih p' t' hsc
        rw [← hp1, ← ht1, hcs]
        simp

theorem splitAtLit_len {s p t : Str} (h : splitAtLit s = some (p, t)) :
    t.length + 10 ≤ s.length := by
  have := splitAtLit_decomp s p t h
  subst this
  simp [msgLit_len]
  omega

theorem splitAtLit_of_lit (s x : Str) (h : s = msgLit ++ x) : splitAtLit s = some ([], x) := by
  subst h
  have hcons : msgLit ++ x = '#' :: ('#' :: ' ' :: 'M' :: 'e' :: 's' :: 's' :: 'a' :: 'g' :: 'e' :: x) := rfl
  rw [hcons, splitAtLit, if_pos (by rw [← hcons]; exact isPrefixOf_app_self msgLit x)]
  rfl

theorem splitAtLit_cons_none {c : Char} {cs : Str} (h : splitAtLit (c :: cs) = none) :
    List.isPrefixOf msgLit (c :: cs) = false ∧ splitAtLit cs = none := by
  constructor
  · cases hb : List.isPrefixOf msgLit (c :: cs) with
    | false => rfl
    | true => rw [splitAtLit, if_pos hb] at h; simp at h
  · cases hsc : splitAtLit cs with
    | none => rfl
    | some pt =>
      rw [splitAtLit] at h
      cases hb : List.isPrefixOf msgLit (c :: cs) with
      | false => rw [if_neg (by rw [hb]; simp), hsc] at h; simp at h
      | true => rw [if_pos hb] at h; simp at h

theorem splitAtLit_app_none (b : Str) :
    ∀ a : Str, splitAtLit a = none → (∃ a0, a = a0 ++ ['\n']) →
    splitAtLit (a ++ b) = (splitAtLit b).map (fun pt => (a ++ pt.1, pt.2)) := by
  intro a
  induction a with
  | nil => rintro _ ⟨a0, ha0⟩; simp at ha0
  | cons c cs ih =>
    rintro ha ⟨a0, ha0⟩
    obtain ⟨hnp, hrest⟩ := splitAtLit_cons_none ha
    have hnp2 : List.isPrefixOf msgLit (c :: (cs ++ b)) = false := by
      by_cases hl : 10 ≤ (c :: cs).length
      · have := isPrefixOf_app_of_le msgLit (c :: cs) b (by rw [msgLit_len]; exact hl)
        rw [List.cons_append] at this
        rw [this]; exact hnp
      · have hmem : '\n' ∈ c :: cs := by rw [ha0]; simp
        have := isPrefixOf_msgLit_app_false (c :: cs) b hmem
          (by simp at hl ⊢; omega)
        rw [List.cons_append] at this
        exact this
    cases cs with
    | nil =>
      have hc : c = '\n' := by
        cases a0 with
        | nil =>
          have : [c] = ['\n'] := by simpa using ha0
          injection this
        | cons e es =>
          have hlen := congrArg List.length ha0
          simp at hlen
      subst hc
      rw [List.cons_append, splitAtLit, if_neg (by rw [hnp2]; simp)]
      cases hb : splitAtLit b with
      | none => simp [hb]
      | some pt => simp [hb]
    | cons d ds =>
      have hds : ∃ a1, d :: ds = a1 ++ ['\n'] := by
        cases a0 with
        | nil =>
          have hlen := congrArg List.length ha0
          simp at hlen
        | cons e es =>
          rw [List.cons_append] at ha0
          exact ⟨es, by injection ha0 with _ h2⟩
      rw [List.cons_append, splitAtLit, if_neg (by rw [hnp2]; simp)]
      rw [ih hrest hds]
      cases hb : splitAtLit b with
      | none => simp [hb]
      | some pt => simp [hb]

theorem splitAtLit_app_nn : ∀ a : Str, splitAtLit a = none →
    splitAtLit (a ++ strLit "\n\n") = none := by
  intro a
  induction a with
  | nil => intro _; decide
  | cons c cs ih =>
    intro ha
    obtain ⟨hnp, hrest⟩ := splitAtLit_cons_none ha
    have hnp2 : List.isPrefixOf msgLit (c :: (cs ++ strLit "\n\n")) = false := by
      by_cases hl : 10 ≤ (c :: cs).length
      · have := isPrefixOf_app_of_le msgLit (c :: cs) (strLit "\n\n")
          (by rw [msgLit_len]; exact hl)
        rw [List.cons_append] at this
        rw [this]; exact hnp
      · have hsplit : (c :: cs) ++ strLit "\n\n" = ((c :: cs) ++ ['\n']) ++ ['\n'] := by
          have hnn : strLit "\n\n" = ['\n'] ++ ['\n'] := rfl
          rw [hnn, ← List.append_assoc]
        have := isPrefixOf_msgLit_app_false ((c :: cs) ++ ['\n']) ['\n']
          (by simp) (by simp at hl ⊢; omega)
        rw [← hsplit] at this
        rw [List.cons_append] at this
        exact this
    rw [List.cons_append, splitAtLit, if_neg (by rw [hnp2]; simp)]
    rw [ih hrest]
    simp

/-! ## natDigits lemmas -/

theorem digitChar_isDigit (d : Nat) (h : d < 10) : (digitChar d).isDigit = true := by
  interval_cases d <;> decide

theorem natDigitsCore_shape : ∀ (fuel n : Nat) (acc : Str),
    ∃ ds : Str, natDigitsCore (fuel + 1) n acc = ds ++ acc ∧ ds ≠ [] ∧
      ∀ c ∈ ds, c.isDigit = true := by
  intro fuel
  induction fuel with
  | zero =>
    intro n acc
    refine ⟨[digitChar (n % 10)], ?_, by simp, ?_⟩
    · by_cases hn : n < 10 <;> simp [natDigitsCore, hn]
    · intro c hc
      simp at hc
      subst hc
      exact digitChar_isDigit _ (Nat.mod_lt _ (by omega))
  | succ f ih =>
    intro n acc
    by_cases hn : n < 10
    · refine ⟨[digitChar (n % 10)], by simp [natDigitsCore, hn], by simp, ?_⟩
      intro c hc
      simp at hc
      subst hc
      exact digitChar_isDigit _ (Nat.mod_lt _ (by omega))
    · obtain ⟨ds, hds, hne, hdig⟩ := ih (n / 10) (digitChar (n % 10) :: acc)
      refine ⟨ds ++ [digitChar (n % 10)], ?_, by simp, ?_⟩
      · rw [natDigitsCore, if_neg hn, hds]
        simp
      · intro c hc
        rw [List.mem_append] at hc
        cases hc with
        | inl h => exact hdig c h
        | inr h =>
          simp at h
          subst h
          exact digitChar_isDigit _ (Nat.mod_lt _ (by omega))

theorem natDigits_shape (n : Nat) :
    natDigits n ≠ [] ∧ ∀ c ∈ natDigits n, c.isDigit = true := by
  obtain ⟨ds, hds, hne, hdig⟩ := natDigitsCore_shape n n []
  rw [natDigits, hds]
  simp only [List.append_nil]
  exact ⟨hne, hdig⟩

/-! ## Parser component lemmas -/

theorem scanAt_nil : ∀ f, scanAt f [] = [] := by
  intro f
  cases f with
  | zero => rfl
  | succ f => simp [scanAt, parseHeaderTail, splitAtLit]

theorem parseParen_grp (g z : Str) (hg : parenOk g) :
    parseParen (' ' :: '(' :: (g ++ ')' :: z)) = some (g, z) := by
  have hall : ∀ c ∈ g, (!(c == ')')) = true := by
    intro c hc
    simp only [Bool.not_eq_true', beq_eq_false_iff_ne, ne_eq]
    exact fun h => hg.2 (h ▸ hc)
  have htw : (g ++ ')' :: z).takeWhile (fun c => !(c == ')')) = g := by
    rw [takeWhile_app _ g (')' :: z) hall]
    simp [List.takeWhile]
  have hdw : (g ++ ')' :: z).dropWhile (fun c => !(c == ')')) = ')' :: z := by
    rw [dropWhile_app _ g (')' :: z) hall]
    simp [List.dropWhile]
  simp only [parseParen, htw, hdw]
  rw [if_neg hg.1]

theorem parseParen_nl (R : Str) : parseParen ('\n' :: R) = none := rfl

theorem parseParens_one (ts R : Str) (hts : parenOk ts) :
    parseParens (' ' :: '(' :: (ts ++ ')' :: '\n' :: R)) = some (none, ts, R) := by
  have h1 := parseParen_grp ts ('\n' :: R) hts
  simp only [parseParens, h1, parseParen_nl]

theorem parseParens_two (pv ts R : Str) (hpv : parenOk pv) (hts : parenOk ts) :
    parseParens (' ' :: '(' :: (pv ++ ')' :: ' ' :: '(' :: (ts ++ ')' :: '\n' :: R)))
      = some (some pv, ts, R) := by
  have h1 := parseParen_grp pv (' ' :: '(' :: (ts ++ ')' :: '\n' :: R)) hpv
  have h2 := parseParen_grp ts ('\n' :: R) hts
  simp only [parseParens, h1, h2]

theorem pickRole_user (y : Str) : pickRole (strLit "User" ++ y) = some (strLit "User", y) := by
  rw [pickRole, if_pos (isPrefixOf_app_self _ _)]
  rw [show (4 : Nat) = (strLit "User").length from rfl, List.drop_left]

theorem pickRole_assist (y : Str) :
    pickRole (strLit "Assistant" ++ y) = some (strLit "Assistant", y) := by
  have hfalse : List.isPrefixOf (strLit "User") (strLit "Assistant" ++ y) = false := by
    show (('U' == 'A') && List.isPrefixOf (strLit "ser") (strLit "ssistant" ++ y)) = false
    simp
  rw [pickRole, if_neg (by rw [hfalse]; simp), if_pos (isPrefixOf_app_self _ _)]
  rw [show (9 : Nat) = (strLit "Assistant").length from rfl, List.drop_left]

theorem parseHeaderTail_user (n : Nat) (ts R : Str) (hts : parenOk ts) :
    parseHeaderTail (' ' :: (natDigits n ++ (strLit " - User (" ++ (ts ++ (strLit ")\n" ++ R)))))
      = some (strLit "User", none, ts, R) := by
  obtain ⟨hne, hdig⟩ := natDigits_shape n
  have hhead : strLit " - User (" ++ (ts ++ (strLit ")\n" ++ R))
      = ' ' :: '-' :: ' ' :: (strLit "User (" ++ (ts ++ (strLit ")\n" ++ R))) := rfl
  have htw : (natDigits n ++ (strLit " - User (" ++ (ts ++ (strLit ")\n" ++ R)))).takeWhile
      Char.isDigit = natDigits n := by
    rw [takeWhile_app _ _ _ hdig, hhead]
    simp [List.takeWhile]
  have hdw : (natDigits n ++ (strLit " - User (" ++ (ts ++ (strLit ")\n" ++ R)))).dropWhile
      Char.isDigit = ' ' :: '-' :: ' ' :: (strLit "User (" ++ (ts ++ (strLit ")\n" ++ R))) := by
    rw [dropWhile_app _ _ _ hdig, hhead]
    simp [List.dropWhile]
  obtain ⟨d, ds, hds⟩ : ∃ d ds, natDigits n = d :: ds := by
    cases h : natDigits n with
    | nil => exact absurd h hne
    | cons d ds => exact ⟨d, ds, rfl⟩
  have hrole : strLit "User (" ++ (ts ++ (strLit ")\n" ++ R))
      = strLit "User" ++ (' ' :: '(' :: (ts ++ ')' :: '\n' :: R)) := by
    have e1 : strLit "User (" = strLit "User" ++ [' ', '('] := rfl
    have e2 : strLit ")\n" ++ R = ')' :: '\n' :: R := rfl
    rw [e1, e2]
    simp
  simp only [parseHeaderTail]
  rw [htw, hdw, hds, hrole]
  simp only [pickRole_user, parseParens_one ts R hts]

theorem parseHeaderTail_assist (n : Nat) (pv ts R : Str) (hpv : parenOk pv) (hts : parenOk ts) :
    parseHeaderTail (' ' :: (natDigits n ++ (strLit " - Assistant ("
        ++ (pv ++ (strLit ") (" ++ (ts ++ (strLit ")\n" ++ R)))))))
      = some (strLit "Assistant", some pv, ts, R) := by
  obtain ⟨hne, hdig⟩ := natDigits_shape n
  have hhead : strLit " - Assistant (" ++ (pv ++ (strLit ") (" ++ (ts ++ (strLit ")\n" ++ R))))
      = ' ' :: '-' :: ' ' :: (strLit "Assistant ("
          ++ (pv ++ (strLit ") (" ++ (ts ++ (strLit ")\n" ++ R))))) := rfl
  have htw : (natDigits n ++ (strLit " - Assistant ("
      ++ (pv ++ (strLit ") (" ++ (ts ++ (strLit ")\n" ++ R)))))).takeWhile
      Char.isDigit = natDigits n := by
    rw [takeWhile_app _ _ _ hdig, hhead]
    simp [List.takeWhile]
  have hdw : (natDigits n ++ (strLit " - Assistant ("
      ++ (pv ++ (strLit ") (" ++ (ts ++ (strLit ")\n" ++ R)))))).dropWhile
      Char.isDigit = ' ' :: '-' :: ' ' :: (strLit "Assistant ("
        ++ (pv ++ (strLit ") (" ++ (ts ++ (strLit ")\n" ++ R))))) := by
    rw [dropWhile_app _ _ _ hdig, hhead]
    simp [List.dropWhile]
  obtain ⟨d, ds, hds⟩ : ∃ d ds, natDigits n = d :: ds := by
    cases h : natDigits n with
    | nil => exact absurd h hne
    | cons d ds => exact ⟨d, ds, rfl⟩
  have hrole : strLit "Assistant (" ++ (pv ++ (strLit ") (" ++ (ts ++ (strLit ")\n" ++ R))))
      = strLit "Assistant" ++ (' ' :: '(' :: (pv ++ ')' :: ' ' :: '(' :: (ts ++ ')' :: '\n' :: R))) := by
    have e1 : strLit "Assistant (" = strLit "Assistant" ++ [' ', '('] := rfl
    have e2 : strLit ") (" ++ (ts ++ (strLit ")\n" ++ R))
        = ')' :: ' ' :: '(' :: (ts ++ ')' :: '\n' :: R) := by
      have e3 : strLit ")\n" ++ R = ')' :: '\n' :: R := rfl
      rw [show strLit ") (" = [')', ' ', '('] from rfl, e3]
      simp
    rw [e1, e2]
    simp
  simp only [parseHeaderTail]
  rw [htw, hdw, hds, hrole]
  simp only [pickRole_assist, parseParens_two pv ts R hpv hts]

/-! ## Length bounds for the parser (fuel sufficiency) -/

theorem parseParen_len : ∀ {u g u2 : Str}, parseParen u = some (g, u2) → u2.length < u.length := by
  intro u g u2 h
  unfold parseParen at h
  split at h
  case _ r =>
    dsimp only at h
    split at h
    case _ r2 heq =>
      split at h
      · simp at h
      · simp only [Option.some_inj, Prod.mk.injEq] at h
        obtain ⟨h1, h2⟩ := h
        subst h2
        have hle : (')' :: r2).length ≤ r.length := heq ▸ dropWhile_len_le _ r
        simp at hle ⊢
        omega
    case _ => simp at h
  case _ => simp at h

theorem parseParens_len : ∀ {u ts body : Str} {pv : Option Str}, parseParens u = some (pv, ts, body) →
    body.length < u.length := by
  intro u ts body pv h
  unfold parseParens at h
  split at h
  case _ => simp at h
  case _ a u1 heq1 =>
    have hu1 : u1.length < u.length := parseParen_len heq1
    split at h
    case _ b body' heq2 =>
      simp only [Option.some_inj, Prod.mk.injEq] at h
      obtain ⟨_, _, h3⟩ := h
      subst h3
      have := parseParen_len heq2
      simp at this
      omega
    case _ =>
      split at h
      case _ body' =>
        simp only [Option.some_inj, Prod.mk.injEq] at h
        obtain ⟨_, _, h3⟩ := h
        subst h3
        simp at hu1
        omega
      case _ => simp at h

theorem pickRole_len : ∀ {t role t4 : Str}, pickRole t = some (role, t4) →
    t4.length ≤ t.length := by
  intro t role t4 h
  unfold pickRole at h
  split at h
  · simp only [Option.some_inj, Prod.mk.injEq] at h
    obtain ⟨_, h2⟩ := h
    subst h2
    simp [List.length_drop]
  · split at h
    · simp only [Option.some_inj, Prod.mk.injEq] at h
      obtain ⟨_, h2⟩ := h
      subst h2
      simp [List.length_drop]
    · simp at h

theorem parseHeaderTail_len : ∀ {t role ts body : Str} {pv : Option Str},
    parseHeaderTail t = some (role, pv, ts, body) → body.length < t.length := by
  intro t role ts body pv h
  unfold parseHeaderTail at h
  split at h
  case _ t1 =>
    split at h
    case _ => simp at h
    case _ d ds t3 htweq hdweq =>
      split at h
      case _ => simp at h
      case _ role' t4 hpick =>
        split at h
        case _ => simp at h
        case _ prov' ts' body' hpp =>
          simp only [Option.some_inj, Prod.mk.injEq] at h
          obtain ⟨_, _, _, h4⟩ := h
          subst h4
          have h5 : body'.length < t4.length := parseParens_len hpp
          have h6 : t4.length ≤ t3.length := pickRole_len hpick
          have h7 : (' ' :: '-' :: ' ' :: t3).length ≤ t1.length := hdweq ▸ dropWhile_len_le _ t1
          simp at h7 ⊢
          omega
    case _ => simp at h
  case _ => simp at h

/-! ## Fuel invariance of the scan -/

theorem scanAt_fuel_eq : ∀ (n : Nat) (t : Str), t.length ≤ n →
    ∀ f g, t.length ≤ f → t.length ≤ g → scanAt f t = scanAt g t := by
  intro n
  induction n with
  | zero =>
    intro t ht f g _ _
    have : t = [] := List.length_eq_zero.1 (by omega)
    subst this
    rw [scanAt_nil, scanAt_nil]
  | succ n ih =>
    intro t ht f g hf hg
    cases t with
    | nil => rw [scanAt_nil, scanAt_nil]
    | cons c cs =>
      cases f with
      | zero => simp at hf
      | succ f' =>
        cases g with
        | zero => simp at hg
        | succ g' =>
          simp only [scanAt]
          cases hp : parseHeaderTail (c :: cs) with
          | none =>
            simp only [hp]
            cases hs : splitAtLit (c :: cs) with
            | none => simp [hs]
            | some pt =>
              obtain ⟨p2, t2⟩ := pt
              simp only [hs]
              have hl := splitAtLit_len hs
              simp only [List.length_cons] at ht hf hg hl
              exact ih t2 (by omega) f' g' (by omega) (by omega)
          | some quad =>
            obtain ⟨role, prov, ts, after⟩ := quad
            simp only [hp]
            have hal : after.length < (c :: cs).length := parseHeaderTail_len hp
            cases hs : splitAtLit after with
            | none => simp [hs]
            | some pt =>
              obtain ⟨body, t2⟩ := pt
              simp only [hs, List.cons.injEq, true_and]
              have hl := splitAtLit_len hs
              simp only [List.length_cons] at ht hf hg hal
              exact ih t2 (by omega) f' g' (by omega) (by omega)

/-! ## strip and lower lemmas -/

theorem dropWhile_app_cases (p : Char → Bool) (a b : Str) :
    (a ++ b).dropWhile p =
      if a.dropWhile p = [] then b.dropWhile p else a.dropWhile p ++ b := by
  induction a with
  | nil => simp
  | cons c cs ih =>
    by_cases hc : p c = true
    · simp only [List.cons_append, List.dropWhile, hc]
      exact ih
    · simp only [List.cons_append, List.dropWhile, hc]
      simp

theorem strip_app_nn (x : Str) : stripChars (x ++ strLit "\n\n") = stripChars x := by
  unfold stripChars
  rw [dropWhile_app_cases]
  cases hd : x.dropWhile isPySpace with
  | nil =>
    rw [if_pos rfl]
    rfl
  | cons y ys =>
    rw [if_neg (by simp)]
    have hrev : ((y :: ys) ++ strLit "\n\n").reverse = '\n' :: '\n' :: (y :: ys).reverse := by
      rw [List.reverse_append]
      rfl
    rw [hrev]
    have hnl : isPySpace '\n' = true := by decide
    simp only [List.dropWhile, hnl]

theorem lower_user : lowerStr (strLit "User") = strLit "user" := by decide

theorem lower_assist : lowerStr (strLit "Assistant") = strLit "assistant" := by decide

theorem scanMsgs_lit (x : Str) : scanMsgs (msgLit ++ x) = scanAt x.length x := by
  simp only [scanMsgs, splitAtLit_of_lit (msgLit ++ x) x rfl]

theorem scanAt_canon (f : Nat) (t : Str) (h : t.length ≤ f) : scanAt f t = scanAt t.length t :=
  scanAt_fuel_eq f t h f t.length h le_rfl

/-- Scanning one encoded block followed by either nothing or further blocks
recovers the block's message and continues with the rest. -/
theorem scanMsgs_block (n : Nat) (m : Message) (rest : Str) (hm : benignMsg m)
    (hr : rest = [] ∨ ∃ r0, rest = msgLit ++ r0) :
    scanMsgs (encodeMessage n m ++ rest) = rawDecodedOf m :: scanMsgs rest := by
  obtain ⟨hrole, hstrip, hlit, hts, hpv⟩ := hm
  have hcontnn : splitAtLit (m.content ++ strLit "\n\n") = none := splitAtLit_app_nn _ hlit
  have hends : ∃ a0, m.content ++ strLit "\n\n" = a0 ++ ['\n'] :=
    ⟨m.content ++ ['\n'], by rw [show strLit "\n\n" = ['\n'] ++ ['\n'] from rfl,
      ← List.append_assoc]⟩
  cases hrole with
  | inl hu =>
    have hdec : encodeMessage n m ++ rest
        = msgLit ++ (' ' :: (natDigits n ++ (strLit " - User ("
            ++ (fmtTs m.timestamp ++ (strLit ")\n" ++ (m.content ++ (strLit "\n\n" ++ rest))))))) := by
      rw [encodeMessage, if_pos hu, show strLit "## Message " = msgLit ++ [' '] from rfl]
      simp [List.append_assoc]
    rw [hdec, scanMsgs_lit, List.length_cons]
    simp only [scanAt, parseHeaderTail_user n (fmtTs m.timestamp)
      (m.content ++ (strLit "\n\n" ++ rest)) hts]
    rcases hr with rfl | ⟨r0, rfl⟩
    · simp only [List.append_nil, hcontnn]
      rw [lower_user, strip_app_nn, hstrip]
      simp [rawDecodedOf, hu, scanMsgs, splitAtLit]
    · rw [show m.content ++ (strLit "\n\n" ++ (msgLit ++ r0))
          = (m.content ++ strLit "\n\n") ++ (msgLit ++ r0) from by rw [List.append_assoc]]
      rw [splitAtLit_app_none (msgLit ++ r0) (m.content ++ strLit "\n\n") hcontnn hends,
        splitAtLit_of_lit (msgLit ++ r0) r0 rfl]
      simp only [Option.map_some', List.append_nil]
      rw [scanMsgs_lit, lower_user, strip_app_nn, hstrip]
      rw [rawDecodedOf, if_pos hu]
      congr 1
      exact scanAt_canon _ _ (by simp [List.length_append]; omega)
  | inr ha =>
    have hne : ¬(m.role = strLit "user") := by rw [ha]; decide
    have hdec : encodeMessage n m ++ rest
        = msgLit ++ (' ' :: (natDigits n ++ (strLit " - Assistant ("
            ++ (m.provider ++ (strLit ") (" ++ (fmtTs m.timestamp
              ++ (strLit ")\n" ++ (m.content ++ (strLit "\n\n" ++ rest))))))))) := by
      rw [encodeMessage, if_neg hne, show strLit "## Message " = msgLit ++ [' '] from rfl]
      simp [List.append_assoc]
    rw [hdec, scanMsgs_lit, List.length_cons]
    simp only [scanAt, parseHeaderTail_assist n m.provider (fmtTs m.timestamp)
      (m.content ++ (strLit "\n\n" ++ rest)) hpv hts]
    rcases hr with rfl | ⟨r0, rfl⟩
    · simp only [List.append_nil, hcontnn]
      rw [lower_assist, strip_app_nn, hstrip, rawDecodedOf, if_neg hne]
      simp [scanMsgs, splitAtLit]
    · rw [show m.content ++ (strLit "\n\n" ++ (msgLit ++ r0))
          = (m.content ++ strLit "\n\n") ++ (msgLit ++ r0) from by rw [List.append_assoc]]
      rw [splitAtLit_app_none (msgLit ++ r0) (m.content ++ strLit "\n\n") hcontnn hends,
        splitAtLit_of_lit (msgLit ++ r0) r0 rfl]
      simp only [Option.map_some', List.append_nil]
      rw [scanMsgs_lit, lower_assist, strip_app_nn, hstrip]
      rw [rawDecodedOf, if_neg hne]
      congr 1
      exact scanAt_canon _ _ (by simp [List.length_append]; omega)

theorem encodeMessage_starts (n : Nat) (m : Message) : ∃ x, encodeMessage n m = msgLit ++ x := by
  by_cases h : m.role = strLit "user"
  · refine ⟨' ' :: (natDigits n ++ (strLit " - User (" ++ (fmtTs m.timestamp
      ++ (strLit ")\n" ++ (m.content ++ strLit "\n\n"))))), ?_⟩
    rw [encodeMessage, if_pos h, show strLit "## Message " = msgLit ++ [' '] from rfl]
    simp [List.append_assoc]
  · refine ⟨' ' :: (natDigits n ++ (strLit " - Assistant (" ++ (m.provider
      ++ (strLit ") (" ++ (fmtTs m.timestamp
        ++ (strLit ")\n" ++ (m.content ++ strLit "\n\n"))))))), ?_⟩
    rw [encodeMessage, if_neg h, show strLit "## Message " = msgLit ++ [' '] from rfl]
    simp [List.append_assoc]

theorem scanMsgs_blocks (idx : Nat) (ms : List Message) (h : ∀ m ∈ ms, benignMsg m) :
    scanMsgs (encodeBlocks idx ms) = ms.map rawDecodedOf := by
  induction ms generalizing idx with
  | nil => rfl
  | cons m ms' ih =>
    have hr : encodeBlocks (idx + 1) ms' = [] ∨
        ∃ r0, encodeBlocks (idx + 1) ms' = msgLit ++ r0 := by
      cases ms' with
      | nil => exact Or.inl rfl
      | cons m2 ms2 =>
        obtain ⟨x, hx⟩ := encodeMessage_starts (idx + 1 + 1) m2
        exact Or.inr ⟨x ++ encodeBlocks (idx + 1 + 1) ms2, by
          simp only [encodeBlocks]; rw [hx]; simp [List.append_assoc]⟩
    show scanMsgs (encodeMessage (idx + 1) m ++ encodeBlocks (idx + 1) ms') = _
    rw [scanMsgs_block (idx + 1) m _ (h m (by simp)) hr,
      ih (idx + 1) (fun m' hm' => h m' (by simp [hm']))]
    rfl

theorem scanMsgs_skip_hdr (a b : Str) (ha : splitAtLit a = none)
    (hend : ∃ a0, a = a0 ++ ['\n']) : scanMsgs (a ++ b) = scanMsgs b := by
  rw [scanMsgs, splitAtLit_app_none b a ha hend]
  cases hb : splitAtLit b with
  | none => rw [scanMsgs, hb]; rfl
  | some pt =>
    obtain ⟨p, t⟩ := pt
    rw [scanMsgs, hb]
    rfl

theorem ends_nl_of_app_nn (x y : Str) (hy : y = x ++ strLit "\n\n") :
    ∃ a0, y = a0 ++ ['\n'] :=
  ⟨x ++ ['\n'], by rw [hy, show strLit "\n\n" = ['\n'] ++ ['\n'] from rfl,
    ← List.append_assoc]⟩

theorem chatHeader_ends (c : Chat) : ∃ a0, chatHeaderText c = a0 ++ ['\n'] :=
  ends_nl_of_app_nn _ _ rfl

theorem fallback_raw (fb : Option Str) (m : Message) :
    (fun d => { d with provider := match d.provider with | some p => some p | none => fb })
      (rawDecodedOf m) = finalDecodedOf fb m := by
  unfold rawDecodedOf finalDecodedOf
  by_cases h : m.role = strLit "user" <;> simp [h]

/-- Claim C1, as stated, is false: content is recovered only after
`strip()`, so a message whose content carries surrounding whitespace does
not round-trip.  Encoding the user message with content `" hi "` and
decoding the block yields content `"hi"`. -/
theorem c1_counterexample :
    (decodeMessages none (encodeMessage 1
        ⟨strLit "user", strLit " hi ", strLit "claude",
         strLit "2024-01-01T00:00:00"⟩)).map DMsg.content = [strLit "hi"] ∧
    strLit "hi" ≠ strLit " hi " := by
  constructor
  · rfl
  · decide

/-- Claim C1 (amended): for a message with role `user` or `assistant`,
strip-invariant content containing no `## Message` occurrence, and
paren-safe provider/timestamp, decoding the block written by
`add_message` recovers the role and content exactly, and the backend
label is recovered from the encoded text only when the role is
`assistant` (otherwise the decoder falls back to the chat's provider). -/
theorem c1_roundtrip_benign (fb : Option Str) (n : Nat) (m : Message) (hm : benignMsg m) :
    decodeMessages fb (encodeMessage n m) =
      [{ role := m.role, content := m.content,
         provider := if m.role = strLit "assistant" then some m.provider else fb,
         timestamp := fmtTs m.timestamp }] := by
  have hblock := scanMsgs_block n m [] hm (Or.inl rfl)
  rw [List.append_nil] at hblock
  have hnil : scanMsgs [] = [] := rfl
  rw [hnil] at hblock
  rw [decodeMessages, hblock]
  rcases hm.1 with hu | ha
  · have hneq : ¬(strLit "user" = strLit "assistant") := by decide
    simp [rawDecodedOf, hu, hneq]
  · have hne : ¬(strLit "assistant" = strLit "user") := by decide
    simp [rawDecodedOf, ha, hne]

/-- Claim C1 witness: the amended round-trip at a concrete assistant
message. -/
theorem c1_witness :
    decodeMessages none (encodeMessage 2
        ⟨strLit "assistant", strLit "Sure, here you go.", strLit "claude",
         strLit "2024-01-01T00:00:05"⟩) =
      [{ role := strLit "assistant", content := strLit "Sure, here you go.",
         provider := if strLit "assistant" = strLit "assistant"
                     then some (strLit "claude") else none,
         timestamp := fmtTs (strLit "2024-01-01T00:00:05") }] :=
  c1_roundtrip_benign none 2
    ⟨strLit "assistant", strLit "Sure, here you go.", strLit "claude",
     strLit "2024-01-01T00:00:05"⟩ (by decide)

theorem add_all_spec (inputs : List AddInput) : ∀ cf : ChatFile,
    (add_all cf inputs).chat.message_count = cf.chat.message_count + inputs.length ∧
    (add_all cf inputs).chat.provider = cf.chat.provider ∧
    (add_all cf inputs).chat.messages
      = cf.chat.messages ++ inputs.map (inputMsg cf.chat.provider) ∧
    (add_all cf inputs).file
      = cf.file ++ encodeBlocks cf.chat.message_count (inputs.map (inputMsg cf.chat.provider)) := by
  induction inputs with
  | nil => intro cf; simp [add_all, encodeBlocks]
  | cons i is ih =>
    intro cf
    have hstep : add_all cf (i :: is)
        = add_all ((add_message cf i.role i.content i.provider i.now).1) is := rfl
    obtain ⟨h1, h2, h3, h4⟩ := ih ((add_message cf i.role i.content i.provider i.now).1)
    have hc1 : ((add_message cf i.role i.content i.provider i.now).1).chat.message_count
        = cf.chat.message_count + 1 := rfl
    have hc2 : ((add_message cf i.role i.content i.provider i.now).1).chat.provider
        = cf.chat.provider := rfl
    have hc3 : ((add_message cf i.role i.content i.provider i.now).1).chat.messages
        = cf.chat.messages ++ [inputMsg cf.chat.provider i] := rfl
    have hc4 : ((add_message cf i.role i.content i.provider i.now).1).file
        = cf.file ++ encodeMessage (cf.chat.message_count + 1) (inputMsg cf.chat.provider i) := rfl
    refine ⟨?_, ?_, ?_, ?_⟩ <;> rw [hstep]
    · rw [h1, hc1]; simp; omega
    · rw [h2, hc2]
    · rw [h3, hc3, hc2]; simp
    · rw [h4, hc4, hc2, hc1]
      simp only [List.map_cons, encodeBlocks, List.append_assoc]

/-- Claim C2, as stated, is false: one completed `add_message` whose content
embeds a `## Message` header line gives `message_count = 1` while decoding
the backing file yields 2 messages. -/
theorem c2_counterexample :
    (add_all (create_chat (strLit "abc12345") (strLit "t")
        (strLit "2024-01-01T00:00:00") none)
        [⟨strLit "user", strLit "x\n## Message 2 - User (2024-01-01 00:00:00)\ny",
          none, strLit "2024-01-01T00:00:00"⟩]).chat.message_count = 1 ∧
    (decodeMessages none ((add_all (create_chat (strLit "abc12345") (strLit "t")
        (strLit "2024-01-01T00:00:00") none)
        [⟨strLit "user", strLit "x\n## Message 2 - User (2024-01-01 00:00:00)\ny",
          none, strLit "2024-01-01T00:00:00"⟩]).file)).length = 2 := by
  constructor
  · rfl
  · rfl

/-- Claim C2 (amended): starting from `create_chat`, after `k` completed
`add_message` calls whose resulting messages are benign (real roles,
strip-invariant contents without an embedded `## Message` literal,
paren-safe provider and timestamp) and whose rendered header contains no
`## Message` literal, the chat's `message_count` equals `k`, its in-memory
message list is the inputs in order, and decoding the backing file yields
exactly those `k` messages in append order. -/
theorem c2_appends_decode (chat_id name now : Str) (project : Option Str)
    (inputs : List AddInput) (fb : Option Str)
    (hhdr : splitAtLit (chatHeaderText (create_chat chat_id name now project).chat) = none)
    (hben : ∀ mi ∈ inputs.map (inputMsg (strLit "claude")), benignMsg mi) :
    (add_all (create_chat chat_id name now project) inputs).chat.message_count
      = inputs.length ∧
    (add_all (create_chat chat_id name now project) inputs).chat.messages
      = inputs.map (inputMsg (strLit "claude")) ∧
    decodeMessages fb ((add_all (create_chat chat_id name now project) inputs).file)
      = (inputs.map (inputMsg (strLit "claude"))).map (finalDecodedOf fb) := by
  obtain ⟨h1, h2, h3, h4⟩ := add_all_spec inputs (create_chat chat_id name now project)
  have hcp : (create_chat chat_id name now project).chat.provider = strLit "claude" := rfl
  have hcc : (create_chat chat_id name now project).chat.message_count = 0 := rfl
  have hcm : (create_chat chat_id name now project).chat.messages = [] := rfl
  have hcf : (create_chat chat_id name now project).file
      = chatHeaderText (create_chat chat_id name now project).chat := rfl
  rw [hcp] at h3 h4
  refine ⟨by rw [h1, hcc]; omega, by rw [h3, hcm]; simp, ?_⟩
  rw [h4, hcf, hcc, decodeMessages,
    scanMsgs_skip_hdr _ _ hhdr (chatHeader_ends _),
    scanMsgs_blocks 0 _ hben, List.map_map]
  exact List.map_congr_left (fun mi _ => fallback_raw fb mi)

/-- Claim C2 witness: two benign appends (a user and an assistant turn) on a
fresh conversation. -/
theorem c2_witness :
    (add_all (create_chat (strLit "abc12345") (strLit "oauth-help")
        (strLit "2024-01-01T00:00:00") none)
        [⟨strLit "user", strLit "How do I do OAuth?", none, strLit "2024-01-01T00:00:01"⟩,
         ⟨strLit "assistant", strLit "Use a token.", some (strLit "claude"),
          strLit "2024-01-01T00:00:02"⟩]).chat.message_count = 2 ∧
    (add_all (create_chat (strLit "abc12345") (strLit "oauth-help")
        (strLit "2024-01-01T00:00:00") none)
        [⟨strLit "user", strLit "How do I do OAuth?", none, strLit "2024-01-01T00:00:01"⟩,
         ⟨strLit "assistant", strLit "Use a token.", some (strLit "claude"),
          strLit "2024-01-01T00:00:02"⟩]).chat.messages
      = [⟨strLit "user", strLit "How do I do OAuth?", none, strLit "2024-01-01T00:00:01"⟩,
         ⟨strLit "assistant", strLit "Use a token.", some (strLit "claude"),
          strLit "2024-01-01T00:00:02"⟩].map (inputMsg (strLit "claude")) ∧
    decodeMessages none ((add_all (create_chat (strLit "abc12345") (strLit "oauth-help")
        (strLit "2024-01-01T00:00:00") none)
        [⟨strLit "user", strLit "How do I do OAuth?", none, strLit "2024-01-01T00:00:01"⟩,
         ⟨strLit "assistant", strLit "Use a token.", some (strLit "claude"),
          strLit "2024-01-01T00:00:02"⟩]).file)
      = ([⟨strLit "user", strLit "How do I do OAuth?", none, strLit "2024-01-01T00:00:01"⟩,
          ⟨strLit "assistant", strLit "Use a token.", some (strLit "claude"),
           strLit "2024-01-01T00:00:02"⟩].map (inputMsg (strLit "claude"))).map
          (finalDecodedOf none) :=
  c2_appends_decode (strLit "abc12345") (strLit "oauth-help")
    (strLit "2024-01-01T00:00:00") none
    [⟨strLit "user", strLit "How do I do OAuth?", none, strLit "2024-01-01T00:00:01"⟩,
     ⟨strLit "assistant", strLit "Use a token.", some (strLit "claude"),
      strLit "2024-01-01T00:00:02"⟩] none (by rfl) (by decide)

/-! ## Association-list lemmas -/

theorem lookupKey_mem {α : Type} : ∀ (l : List (Str × α)) (k : Str) (v : α),
    lookupKey l k = some v → (k, v) ∈ l := by
  intro l
  induction l with
  | nil => intro k v h; simp [lookupKey] at h
  | cons kv r ih =>
    intro k v h
    obtain ⟨k0, v0⟩ := kv
    by_cases hk : k0 = k
    · rw [lookupKey, if_pos hk] at h
      subst hk
      simp at h
      subst h
      simp
    · rw [lookupKey, if_neg hk] at h
      exact List.mem_cons_of_mem _ (ih k v h)

theorem lookupKey_key_mem {α : Type} (l : List (Str × α)) (k : Str) (v : α)
    (h : lookupKey l k = some v) : k ∈ l.map Prod.fst := by
  have := lookupKey_mem l k v h
  exact List.mem_map.2 ⟨(k, v), this, rfl⟩

theorem lookupKey_updateKey_ne {α : Type} : ∀ (l : List (Str × α)) (k q : Str) (f : α → α),
    q ≠ k → lookupKey (updateKey l k f) q = lookupKey l q := by
  intro l
  induction l with
  | nil => intro k q f _; rfl
  | cons kv r ih =>
    intro k q f hne
    obtain ⟨k0, v0⟩ := kv
    by_cases hk : k0 = k
    · subst hk
      simp only [updateKey, List.map_cons, if_pos rfl]
      rw [lookupKey, if_neg (fun h => hne h.symm), lookupKey, if_neg (fun h => hne h.symm)]
      exact ih k0 q f hne
    · simp only [updateKey, List.map_cons, if_neg hk]
      by_cases hq : k0 = q
      · rw [lookupKey, if_pos hq, lookupKey, if_pos hq]
      · rw [lookupKey, if_neg hq, lookupKey, if_neg hq]
        exact ih k q f hne

theorem lookupKey_removeKey_ne {α : Type} : ∀ (l : List (Str × α)) (k q : Str),
    q ≠ k → lookupKey (removeKey l k) q = lookupKey l q := by
  intro l
  induction l with
  | nil => intro k q _; rfl
  | cons kv r ih =>
    intro k q hne
    obtain ⟨k0, v0⟩ := kv
    by_cases hk : k0 = k
    · rw [removeKey, if_pos hk, ih k q hne, lookupKey,
        if_neg (by rw [hk]; exact fun h => hne h.symm)]
    · rw [removeKey, if_neg hk]
      by_cases hq : k0 = q
      · rw [lookupKey, if_pos hq, lookupKey, if_pos hq]
      · rw [lookupKey, if_neg hq, lookupKey, if_neg hq]
        exact ih k q hne

theorem lookupKey_removeKey_self {α : Type} : ∀ (l : List (Str × α)) (k : Str),
    lookupKey (removeKey l k) k = none := by
  intro l
  induction l with
  | nil => intro k; rfl
  | cons kv r ih =>
    intro k
    obtain ⟨k0, v0⟩ := kv
    by_cases hk : k0 = k
    · rw [removeKey, if_pos hk]; exact ih k
    · rw [removeKey, if_neg hk, lookupKey, if_neg hk]; exact ih k

theorem mem_updateKey {α : Type} : ∀ (l : List (Str × α)) (k : Str) (f : α → α),
    keysNodup l → ∀ kv ∈ updateKey l k f,
      kv ∈ l ∨ ∃ v, lookupKey l k = some v ∧ kv = (k, f v) := by
  intro l
  induction l with
  | nil => intro k f _ kv h; simp [updateKey] at h
  | cons hd r ih =>
    intro k f hnd kv hkv
    obtain ⟨k0, v0⟩ := hd
    have hnd' : keysNodup r := by
      unfold keysNodup at hnd ⊢
      rw [List.map_cons, List.nodup_cons] at hnd
      exact hnd.2
    simp only [updateKey, List.map_cons] at hkv
    rw [List.mem_cons] at hkv
    rcases hkv with hhd | htl
    · by_cases hk : k0 = k
      · rw [if_pos hk] at hhd
        subst hk
        exact Or.inr ⟨v0, by rw [lookupKey, if_pos rfl], hhd⟩
      · rw [if_neg hk] at hhd
        exact Or.inl (by rw [hhd]; simp)
    · have := ih k f hnd' kv (show kv ∈ updateKey r k f from htl)
      rcases this with h1 | ⟨v, hv, hkveq⟩
      · exact Or.inl (List.mem_cons_of_mem _ h1)
      · by_cases hk : k0 = k
        · subst hk
          have hmem := lookupKey_key_mem r k0 v hv
          unfold keysNodup at hnd
          rw [List.map_cons, List.nodup_cons] at hnd
          exact absurd hmem hnd.1
        · exact Or.inr ⟨v, by rw [lookupKey, if_neg hk]; exact hv, hkveq⟩

theorem mem_removeKey {α : Type} : ∀ (l : List (Str × α)) (k : Str) (kv : Str × α),
    kv ∈ removeKey l k → kv ∈ l := by
  intro l
  induction l with
  | nil => intro k kv h; simp [removeKey] at h
  | cons hd r ih =>
    intro k kv h
    obtain ⟨k0, v0⟩ := hd
    by_cases hk : k0 = k
    · rw [removeKey, if_pos hk] at h
      exact List.mem_cons_of_mem _ (ih k kv h)
    · rw [removeKey, if_neg hk] at h
      rw [List.mem_cons] at h
      rcases h with h | h
      · rw [h]; simp
      · exact List.mem_cons_of_mem _ (ih k kv h)

/-- Claim C6: the slug of `"My WebApp"` is `"my-webapp"`; creating a fresh
project with that name inserts exactly one record (id `my-webapp`) and its
directories; creating any project whose slug is already indexed raises
AlreadyExists and leaves the state (index and directories) unchanged. -/
theorem c6_slug_and_duplicate :
    slugify (strLit "My WebApp") = strLit "my-webapp" ∧
    (∀ (st : PState) (d ns : Option Str) (now : Str),
      hasKey st.projects (strLit "my-webapp") = false →
      create_project st (strLit "My WebApp") d ns now
        = ({ projects := st.projects ++ [(strLit "my-webapp",
              ⟨strLit "My WebApp", strLit "my-webapp",
               (match d with | some x => x | none => []), ns, now, now, 0, []⟩)],
             dirs := addDir (addDir st.dirs (strLit "projects/" ++ strLit "my-webapp"))
                      (strLit "projects/" ++ strLit "my-webapp" ++ strLit "/chats") },
           Except.ok ⟨strLit "My WebApp", strLit "my-webapp",
             (match d with | some x => x | none => []), ns, now, now, 0, []⟩)) ∧
    (∀ (st : PState) (name : Str) (d ns : Option Str) (now : Str),
      hasKey st.projects (slugify name) = true →
      stripChars name ≠ [] →
      create_project st name d ns now
        = (st, Except.error (strLit "Project '" ++ name ++ strLit "' already exists"))) := by
  refine ⟨by decide, ?_, ?_⟩
  · intro st d ns now hk
    have hslug : slugify (strLit "My WebApp") = strLit "my-webapp" := by decide
    unfold create_project
    rw [if_neg (by decide)]
    dsimp only
    rw [hslug, if_neg (by rw [hk]; simp)]
  · intro st name d ns now hk hstrip
    unfold create_project
    rw [if_neg hstrip]
    dsimp only
    rw [if_pos hk]

/-- Claim C6 witness: creating `"My WebApp"` in an empty store, then
creating it again. -/
theorem c6_witness :
    create_project ⟨[], []⟩ (strLit "My WebApp") none none (strLit "t0")
      = ({ projects := [] ++ [(strLit "my-webapp",
            ⟨strLit "My WebApp", strLit "my-webapp", [], none,
             strLit "t0", strLit "t0", 0, []⟩)],
           dirs := addDir (addDir [] (strLit "projects/" ++ strLit "my-webapp"))
                    (strLit "projects/" ++ strLit "my-webapp" ++ strLit "/chats") },
         Except.ok ⟨strLit "My WebApp", strLit "my-webapp", [], none,
           strLit "t0", strLit "t0", 0, []⟩) ∧
    create_project ⟨[(strLit "my-webapp",
          ⟨strLit "My WebApp", strLit "my-webapp", [], none,
           strLit "t0", strLit "t0", 0, []⟩)],
        [strLit "projects/my-webapp", strLit "projects/my-webapp/chats"]⟩
        (strLit "My WebApp") none none (strLit "t1")
      = (⟨[(strLit "my-webapp",
            ⟨strLit "My WebApp", strLit "my-webapp", [], none,
             strLit "t0", strLit "t0", 0, []⟩)],
          [strLit "projects/my-webapp", strLit "projects/my-webapp/chats"]⟩,
         Except.error (strLit "Project '" ++ strLit "My WebApp"
           ++ strLit "' already exists")) :=
  ⟨c6_slug_and_duplicate.2.1 ⟨[], []⟩ none none (strLit "t0") (by decide),
   c6_slug_and_duplicate.2.2 ⟨[(strLit "my-webapp",
       ⟨strLit "My WebApp", strLit "my-webapp", [], none,
        strLit "t0", strLit "t0", 0, []⟩)],
     [strLit "projects/my-webapp", strLit "projects/my-webapp/chats"]⟩
     (strLit "My WebApp") none none (strLit "t1") (by decide) (by decide)⟩

/-- Claim C10: `chat_count` equals the length of `chats` on every project
record, and every ProjectManager operation that completes normally
preserves this (on stores with unique ids, as Python dicts guarantee):
`create_project` initialises 0/empty, `add_chat` appends and increments,
`remove_chat` removes and decrements, and rename/delete do not touch
either field. -/
theorem c10_chat_count_invariant (st : PState) (hnd : keysNodup st.projects)
    (hinv : chatCountInv st) :
    (∀ name d ns now, chatCountInv (create_project st name d ns now).1) ∧
    (∀ q cid now, chatCountInv (add_chat st q cid now).1) ∧
    (∀ q cid now, chatCountInv (remove_chat st q cid now).1) ∧
    (∀ q nn now, chatCountInv (rename_project st q nn now).1) ∧
    (∀ q b, chatCountInv (delete_project st q b).1) := by
  refine ⟨?_, ?_, ?_, ?_, ?_⟩
  · intro name d ns now
    unfold create_project
    by_cases h1 : stripChars name = []
    · rw [if_pos h1]; exact hinv
    · rw [if_neg h1]
      dsimp only
      by_cases h2 : hasKey st.projects (slugify name) = true
      · rw [if_pos h2]; exact hinv
      · rw [if_neg h2]
        intro kv hkv
        rw [List.mem_append] at hkv
        rcases hkv with h | h
        · exact hinv kv h
        · simp only [List.mem_singleton] at h
          subst h
          simp
  · intro q cid now
    unfold add_chat
    cases hg : get_project st q with
    | none => dsimp only; exact hinv
    | some p =>
      dsimp only
      cases hl : lookupKey st.projects p.id with
      | none => dsimp only; exact hinv
      | some rec0 =>
        dsimp only
        by_cases hmem : cid ∈ rec0.chats
        · rw [if_pos hmem]; exact hinv
        · rw [if_neg hmem]
          intro kv hkv
          dsimp only at hkv
          rcases mem_updateKey st.projects p.id _ hnd kv hkv with h | ⟨v, hv, hkveq⟩
          · exact hinv kv h
          · subst hkveq
            have hvinv := hinv (p.id, v) (lookupKey_mem _ _ _ hv)
            simp only at hvinv ⊢
            simp [hvinv]
  · intro q cid now
    unfold remove_chat
    cases hg : get_project st q with
    | none => dsimp only; exact hinv
    | some p =>
      dsimp only
      cases hl : lookupKey st.projects p.id with
      | none => dsimp only; exact hinv
      | some rec0 =>
        dsimp only
        by_cases hmem : cid ∈ rec0.chats
        · rw [if_pos hmem]
          intro kv hkv
          dsimp only at hkv
          rcases mem_updateKey st.projects p.id _ hnd kv hkv with h | ⟨v, hv, hkveq⟩
          · exact hinv kv h
          · subst hkveq
            have hveq : v = rec0 := by rw [hv] at hl; exact (Option.some_inj.1 hl)
            subst hveq
            have hvinv := hinv (p.id, v) (lookupKey_mem _ _ _ hv)
            simp only at hvinv ⊢
            have hlen : (v.chats.erase cid).length = v.chats.length - 1 :=
              List.length_erase_of_mem hmem
            have hpos : 1 ≤ v.chats.length := List.length_pos.2 (by
              intro hc; rw [hc] at hmem; simp at hmem)
            simp [hlen, hvinv]
            omega
        · rw [if_neg hmem]; exact hinv
  · intro q nn now
    unfold rename_project
    cases hg : get_project st q with
    | none => dsimp only; exact hinv
    | some p =>
      dsimp only
      intro kv hkv
      dsimp only at hkv
      rcases mem_updateKey st.projects p.id _ hnd kv hkv with h | ⟨v, hv, hkveq⟩
      · exact hinv kv h
      · subst hkveq
        have hvinv := hinv (p.id, v) (lookupKey_mem _ _ _ hv)
        simpa using hvinv
  · intro q b
    unfold delete_project
    cases hg : get_project st q with
    | none => dsimp only; exact hinv
    | some p =>
      dsimp only
      intro kv hkv
      dsimp only at hkv
      exact hinv kv (mem_removeKey _ _ _ hkv)

/-- Claim C10 witness: the invariant holds after an append and a removal on
a concrete two-project store. -/
theorem c10_witness :
    chatCountInv (add_chat ⟨[(strLit "alpha",
        ⟨strLit "Alpha", strLit "alpha", [], none, strLit "t0", strLit "t0", 1,
         [strLit "c1"]⟩),
      (strLit "beta",
        ⟨strLit "Beta", strLit "beta", [], none, strLit "t0", strLit "t0", 0, []⟩)], []⟩
      (strLit "alpha") (strLit "c2") (strLit "t1")).1 ∧
    chatCountInv (remove_chat ⟨[(strLit "alpha",
        ⟨strLit "Alpha", strLit "alpha", [], none, strLit "t0", strLit "t0", 1,
         [strLit "c1"]⟩),
      (strLit "beta",
        ⟨strLit "Beta", strLit "beta", [], none, strLit "t0", strLit "t0", 0, []⟩)], []⟩
      (strLit "alpha") (strLit "c1") (strLit "t1")).1 :=
  ⟨(c10_chat_count_invariant ⟨[(strLit "alpha",
        ⟨strLit "Alpha", strLit "alpha", [], none, strLit "t0", strLit "t0", 1,
         [strLit "c1"]⟩),
      (strLit "beta",
        ⟨strLit "Beta", strLit "beta", [], none, strLit "t0", strLit "t0", 0, []⟩)], []⟩
      (by decide) (by decide)).2.1 (strLit "alpha") (strLit "c2") (strLit "t1"),
   (c10_chat_count_invariant ⟨[(strLit "alpha",
        ⟨strLit "Alpha", strLit "alpha", [], none, strLit "t0", strLit "t0", 1,
         [strLit "c1"]⟩),
      (strLit "beta",
        ⟨strLit "Beta", strLit "beta", [], none, strLit "t0", strLit "t0", 0, []⟩)], []⟩
      (by decide) (by decide)).2.2.1 (strLit "alpha") (strLit "c1") (strLit "t1")⟩

/-- Claim C9: deleting a namespace removes only that namespace's own index
entry; the project index is untouched, so every member project's record is
unchanged and still retrievable by its id. -/
theorem c9_delete_namespace_frame (sys : Sys) (q : Str) (ns0 : NamespaceRec)
    (hget : get_namespace sys.ns q = some ns0) :
    (sysDeleteNamespace sys q).1.pr = sys.pr ∧
    (sysDeleteNamespace sys q).2 = true ∧
    lookupKey (sysDeleteNamespace sys q).1.ns.namespaces ns0.id = none ∧
    (∀ k, k ≠ ns0.id →
      lookupKey (sysDeleteNamespace sys q).1.ns.namespaces k
        = lookupKey sys.ns.namespaces k) ∧
    (∀ pid ∈ ns0.project_ids,
      get_project (sysDeleteNamespace sys q).1.pr pid = get_project sys.pr pid) := by
  have hdel : delete_namespace sys.ns q = (⟨removeKey sys.ns.namespaces ns0.id⟩, true) := by
    unfold delete_namespace
    rw [hget]
  have hsys : sysDeleteNamespace sys q
      = ({ sys with ns := ⟨removeKey sys.ns.namespaces ns0.id⟩ }, true) := by
    unfold sysDeleteNamespace
    rw [hdel]
  rw [hsys]
  refine ⟨rfl, rfl, lookupKey_removeKey_self _ _, ?_, ?_⟩
  · intro k hk
    exact lookupKey_removeKey_ne _ _ _ hk
  · intro pid _
    rfl

/-- Claim C9 witness: deleting a namespace holding one project leaves that
project's record retrievable. -/
theorem c9_witness :
    (sysDeleteNamespace ⟨⟨[(strLit "ns1",
        ⟨strLit "ns1", strLit "work", [], strLit "t0", strLit "t0",
         [strLit "alpha"]⟩)]⟩,
      ⟨[(strLit "alpha",
        ⟨strLit "Alpha", strLit "alpha", [], some (strLit "ns1"),
         strLit "t0", strLit "t0", 0, []⟩)], []⟩⟩ (strLit "work")).1.pr
      = ⟨[(strLit "alpha",
        ⟨strLit "Alpha", strLit "alpha", [], some (strLit "ns1"),
         strLit "t0", strLit "t0", 0, []⟩)], []⟩ ∧
    lookupKey (sysDeleteNamespace ⟨⟨[(strLit "ns1",
        ⟨strLit "ns1", strLit "work", [], strLit "t0", strLit "t0",
         [strLit "alpha"]⟩)]⟩,
      ⟨[(strLit "alpha",
        ⟨strLit "Alpha", strLit "alpha", [], some (strLit "ns1"),
         strLit "t0", strLit "t0", 0, []⟩)], []⟩⟩ (strLit "work")).1.ns.namespaces
      (strLit "ns1") = none :=
  ⟨(c9_delete_namespace_frame ⟨⟨[(strLit "ns1",
        ⟨strLit "ns1", strLit "work", [], strLit "t0", strLit "t0",
         [strLit "alpha"]⟩)]⟩,
      ⟨[(strLit "alpha",
        ⟨strLit "Alpha", strLit "alpha", [], some (strLit "ns1"),
         strLit "t0", strLit "t0", 0, []⟩)], []⟩⟩ (strLit "work")
      ⟨strLit "ns1", strLit "work", [], strLit "t0", strLit "t0",
       [strLit "alpha"]⟩ (by decide)).1,
   (c9_delete_namespace_frame ⟨⟨[(strLit "ns1",
        ⟨strLit "ns1", strLit "work", [], strLit "t0", strLit "t0",
         [strLit "alpha"]⟩)]⟩,
      ⟨[(strLit "alpha",
        ⟨strLit "Alpha", strLit "alpha", [], some (strLit "ns1"),
         strLit "t0", strLit "t0", 0, []⟩)], []⟩⟩ (strLit "work")
      ⟨strLit "ns1", strLit "work", [], strLit "t0", strLit "t0",
       [strLit "alpha"]⟩ (by decide)).2.2.1⟩

/-- Claim C5, as stated, is false for `ProjectManager.add_chat`: adding a
chat id that is already a member raises ValueError instead of succeeding
idempotently. -/
theorem c5_counterexample :
    add_chat ⟨[(strLit "p",
        ⟨strLit "p", strLit "p", [], none, strLit "t0", strLit "t0", 1,
         [strLit "c"]⟩)], []⟩ (strLit "p") (strLit "c") (strLit "t1")
      = (⟨[(strLit "p",
          ⟨strLit "p", strLit "p", [], none, strLit "t0", strLit "t0", 1,
           [strLit "c"]⟩)], []⟩,
         Except.error (strLit "Chat 'c' already in project 'p'")) := rfl

/-- Claim C5 (amended): `NamespaceManager.add_project`/`remove_project` are
idempotent (re-adding a member or removing an absent one returns `True`
with the state unchanged); `ProjectManager.remove_chat` with an absent id
returns `False` without raising and changes nothing; but
`ProjectManager.add_chat` with an id already in the member list raises an
AlreadyExists-style ValueError (state unchanged).  All four mutations touch
only the owning entity's index entry. -/
theorem c5_membership_semantics :
    (∀ (st : NState) (q pid now : Str) (ns0 : NamespaceRec),
      get_namespace st q = some ns0 → pid ∈ ns0.project_ids →
      add_project st q pid now = (st, true)) ∧
    (∀ (st : NState) (q pid now : Str) (ns0 : NamespaceRec),
      get_namespace st q = some ns0 → pid ∉ ns0.project_ids →
      remove_project st q pid now = (st, true)) ∧
    (∀ (st : PState) (q cid now : Str) (p rec0 : Project),
      get_project st q = some p → lookupKey st.projects p.id = some rec0 →
      cid ∉ rec0.chats →
      remove_chat st q cid now = (st, Except.ok false)) ∧
    (∀ (st : PState) (q cid now : Str) (p rec0 : Project),
      get_project st q = some p → lookupKey st.projects p.id = some rec0 →
      cid ∈ rec0.chats →
      add_chat st q cid now = (st, Except.error (strLit "Chat '" ++ cid
        ++ strLit "' already in project '" ++ p.name ++ strLit "'"))) ∧
    (∀ (st : NState) (q pid now k : Str) (ns0 : NamespaceRec),
      get_namespace st q = some ns0 → k ≠ ns0.id →
      lookupKey (add_project st q pid now).1.namespaces k
        = lookupKey st.namespaces k ∧
      lookupKey (remove_project st q pid now).1.namespaces k
        = lookupKey st.namespaces k) ∧
    (∀ (st : PState) (q cid now k : Str) (p : Project),
      get_project st q = some p → k ≠ p.id →
      lookupKey (add_chat st q cid now).1.projects k = lookupKey st.projects k ∧
      lookupKey (remove_chat st q cid now).1.projects k
        = lookupKey st.projects k) := by
  refine ⟨?_, ?_, ?_, ?_, ?_, ?_⟩
  · intro st q pid now ns0 hget hmem
    unfold add_project
    rw [hget]
    dsimp only
    rw [if_pos hmem]
  · intro st q pid now ns0 hget hmem
    unfold remove_project
    rw [hget]
    dsimp only
    rw [if_neg hmem]
  · intro st q cid now p rec0 hg hl hmem
    unfold remove_chat
    rw [hg]
    dsimp only
    rw [hl]
    dsimp only
    rw [if_neg hmem]
  · intro st q cid now p rec0 hg hl hmem
    unfold add_chat
    rw [hg]
    dsimp only
    rw [hl]
    dsimp only
    rw [if_pos hmem]
  · intro st q pid now k ns0 hget hk
    constructor
    · unfold add_project
      rw [hget]
      dsimp only
      by_cases hmem : pid ∈ ns0.project_ids
      · rw [if_pos hmem]
      · rw [if_neg hmem]
        dsimp only
        exact lookupKey_updateKey_ne _ _ _ _ hk
    · unfold remove_project
      rw [hget]
      dsimp only
      by_cases hmem : pid ∈ ns0.project_ids
      · rw [if_pos hmem]
        dsimp only
        exact lookupKey_updateKey_ne _ _ _ _ hk
      · rw [if_neg hmem]
  · intro st q cid now k p hg hk
    constructor
    · unfold add_chat
      rw [hg]
      dsimp only
      cases hl : lookupKey st.projects p.id with
      | none => rfl
      | some rec0 =>
        dsimp only
        by_cases hmem : cid ∈ rec0.chats
        · rw [if_pos hmem]
        · rw [if_neg hmem]
          dsimp only
          exact lookupKey_updateKey_ne _ _ _ _ hk
    · unfold remove_chat
      rw [hg]
      dsimp only
      cases hl : lookupKey st.projects p.id with
      | none => rfl
      | some rec0 =>
        dsimp only
        by_cases hmem : cid ∈ rec0.chats
        · rw [if_pos hmem]
          dsimp only
          exact lookupKey_updateKey_ne _ _ _ _ hk
        · rw [if_neg hmem]

/-- Claim C5 witness: idempotent namespace membership mutations and the
`False` result of removing an absent chat, at concrete stores. -/
theorem c5_witness :
    add_project ⟨[(strLit "ns1",
        ⟨strLit "ns1", strLit "work", [], strLit "t0", strLit "t0",
         [strLit "alpha"]⟩)]⟩ (strLit "work") (strLit "alpha") (strLit "t1")
      = (⟨[(strLit "ns1",
          ⟨strLit "ns1", strLit "work", [], strLit "t0", strLit "t0",
           [strLit "alpha"]⟩)]⟩, true) ∧
    remove_project ⟨[(strLit "ns1",
        ⟨strLit "ns1", strLit "work", [], strLit "t0", strLit "t0",
         [strLit "alpha"]⟩)]⟩ (strLit "work") (strLit "beta") (strLit "t1")
      = (⟨[(strLit "ns1",
          ⟨strLit "ns1", strLit "work", [], strLit "t0", strLit "t0",
           [strLit "alpha"]⟩)]⟩, true) ∧
    remove_chat ⟨[(strLit "p",
        ⟨strLit "p", strLit "p", [], none, strLit "t0", strLit "t0", 1,
         [strLit "c"]⟩)], []⟩ (strLit "p") (strLit "zz") (strLit "t1")
      = (⟨[(strLit "p",
          ⟨strLit "p", strLit "p", [], none, strLit "t0", strLit "t0", 1,
           [strLit "c"]⟩)], []⟩, Except.ok false) :=
  ⟨c5_membership_semantics.1 ⟨[(strLit "ns1",
      ⟨strLit "ns1", strLit "work", [], strLit "t0", strLit "t0",
       [strLit "alpha"]⟩)]⟩ (strLit "work") (strLit "alpha") (strLit "t1")
      ⟨strLit "ns1", strLit "work", [], strLit "t0", strLit "t0",
       [strLit "alpha"]⟩ (by decide) (by decide),
   c5_membership_semantics.2.1 ⟨[(strLit "ns1",
      ⟨strLit "ns1", strLit "work", [], strLit "t0", strLit "t0",
       [strLit "alpha"]⟩)]⟩ (strLit "work") (strLit "beta") (strLit "t1")
      ⟨strLit "ns1", strLit "work", [], strLit "t0", strLit "t0",
       [strLit "alpha"]⟩ (by decide) (by decide),
   c5_membership_semantics.2.2.1 ⟨[(strLit "p",
      ⟨strLit "p", strLit "p", [], none, strLit "t0", strLit "t0", 1,
       [strLit "c"]⟩)], []⟩ (strLit "p") (strLit "zz") (strLit "t1")
      ⟨strLit "p", strLit "p", [], none, strLit "t0", strLit "t0", 1, [strLit "c"]⟩
      ⟨strLit "p", strLit "p", [], none, strLit "t0", strLit "t0", 1, [strLit "c"]⟩
      (by decide) (by decide) (by decide)⟩

theorem lookupKey_updateKey_self {α : Type} : ∀ (l : List (Str × α)) (k : Str) (f : α → α),
    lookupKey (updateKey l k f) k = (lookupKey l k).map f := by
  intro l
  induction l with
  | nil => intro k f; rfl
  | cons kv r ih =>
    intro k f
    obtain ⟨k0, v0⟩ := kv
    by_cases hk : k0 = k
    · simp only [updateKey, List.map_cons, if_pos hk]
      rw [lookupKey, if_pos hk, lookupKey, if_pos hk]
      rfl
    · simp only [updateKey, List.map_cons, if_neg hk]
      rw [lookupKey, if_neg hk, lookupKey, if_neg hk]
      exact ih k f

theorem findChatEntry_eq_find? : ∀ (l : List (Str × ChatIdxRec)) (q : Str),
    findChatEntry l q = l.find? (fun kv => kv.1 == q || kv.2.name == q) := by
  intro l
  induction l with
  | nil => intro q; rfl
  | cons kv r ih =>
    intro q
    obtain ⟨cid, info⟩ := kv
    by_cases h : cid = q ∨ info.name = q
    · rw [findChatEntry, if_pos h, List.find?_cons_of_pos]
      simp only [beq_iff_eq]
      rcases h with h | h <;> simp [h]
    · rw [findChatEntry, if_neg h, List.find?_cons_of_neg, ih q]
      simp only [beq_iff_eq]
      push_neg at h
      simp [h.1, h.2]

/-- Claim C7, as stated, is false: `load_chat` scans the index in insertion
order matching id **or** name per entry, so an earlier entry whose *name*
equals the query shadows a later entry whose *id* equals it.  With entries
`aaa` (name `bbb`) and `bbb` (name `zzz`), both files present, loading
`"bbb"` returns the conversation with id `aaa`. -/
theorem c7_counterexample :
    (load_chat ⟨[(strLit "aaa",
        ⟨strLit "aaa", strLit "bbb", strLit "f1", strLit "t0", strLit "t0",
         strLit "claude", 0, none⟩),
      (strLit "bbb",
        ⟨strLit "bbb", strLit "zzz", strLit "f2", strLit "t0", strLit "t0",
         strLit "claude", 0, none⟩)],
      [(strLit "f1", []), (strLit "f2", [])]⟩ (strLit "bbb")).map
        (fun l => l.info.chat_id) = some (strLit "aaa") ∧
    lookupKey [(strLit "aaa",
        (⟨strLit "aaa", strLit "bbb", strLit "f1", strLit "t0", strLit "t0",
         strLit "claude", 0, none⟩ : ChatIdxRec)),
      (strLit "bbb",
        ⟨strLit "bbb", strLit "zzz", strLit "f2", strLit "t0", strLit "t0",
         strLit "claude", 0, none⟩)] (strLit "bbb") ≠ none ∧
    strLit "aaa" ≠ strLit "bbb" := by
  refine ⟨rfl, by decide, by decide⟩

/-- Claim C7 (amended): `load_chat` resolves its query by scanning index
entries in insertion order and taking the first whose id *or* name equals
the query (an id match is not prioritised over an earlier entry's name
match); it returns not-found whenever the resolved entry's backing file is
absent, even though the index entry exists, and otherwise loads the record
with the messages parsed from the file. -/
theorem c7_load_resolution :
    (∀ (st : CState) (q : Str),
      findChatEntry st.chats q
        = st.chats.find? (fun kv => kv.1 == q || kv.2.name == q)) ∧
    (∀ (st : CState) (q cid : Str) (info : ChatIdxRec),
      findChatEntry st.chats q = some (cid, info) →
      lookupKey st.fs info.file_path = none →
      load_chat st q = none) ∧
    (∀ (st : CState) (q cid : Str) (info : ChatIdxRec) (content : Str),
      findChatEntry st.chats q = some (cid, info) →
      lookupKey st.fs info.file_path = some content →
      load_chat st q = some ⟨{ info with chat_id := cid },
        decodeMessages (some info.provider) content⟩) := by
  refine ⟨fun st q => findChatEntry_eq_find? st.chats q, ?_, ?_⟩
  · intro st q cid info hfind hfs
    unfold load_chat
    rw [hfind]
    dsimp only
    rw [hfs]
  · intro st q cid info content hfind hfs
    unfold load_chat
    rw [hfind]
    dsimp only
    rw [hfs]

/-- Claim C7 witness: a stale index entry (backing file missing) is reported
not-found. -/
theorem c7_witness :
    load_chat ⟨[(strLit "ccc",
        ⟨strLit "ccc", strLit "mychat", strLit "gone.md", strLit "t0", strLit "t0",
         strLit "claude", 3, none⟩)], []⟩ (strLit "mychat") = none :=
  c7_load_resolution.2.1 ⟨[(strLit "ccc",
      ⟨strLit "ccc", strLit "mychat", strLit "gone.md", strLit "t0", strLit "t0",
       strLit "claude", 3, none⟩)], []⟩ (strLit "mychat") (strLit "ccc")
    ⟨strLit "ccc", strLit "mychat", strLit "gone.md", strLit "t0", strLit "t0",
     strLit "claude", 3, none⟩ (by decide) (by decide)

/-- Claim C8, as stated, is false: when the directory rename fails, only the
`name` field is reverted before the error is re-raised — `updated_at` keeps
the new timestamp — so the observable index state differs from the state
before the operation. -/
theorem c8_counterexample :
    rename_namespace ⟨[(strLit "n1",
        ⟨strLit "n1", strLit "alpha", [], strLit "t0", strLit "t0", []⟩)]⟩
        (strLit "alpha") (strLit "beta") (strLit "t1") true
      = (⟨[(strLit "n1",
          ⟨strLit "n1", strLit "alpha", [], strLit "t0", strLit "t1", []⟩)]⟩,
         Except.error (strLit "Failed to rename namespace directory")) ∧
    (⟨[(strLit "n1",
        (⟨strLit "n1", strLit "alpha", [], strLit "t0", strLit "t1", []⟩ : NamespaceRec))]⟩ : NState)
      ≠ ⟨[(strLit "n1",
        ⟨strLit "n1", strLit "alpha", [], strLit "t0", strLit "t0", []⟩)]⟩ := by
  refine ⟨rfl, by decide⟩

/-- Claim C8 (amended): when the directory rename fails during
`rename_namespace` (namespace found, no name conflict, record keyed by its
own id), the operation re-raises the failure as an error and reverts the
namespace's `name` in the persisted index to its previous value — but
`updated_at` retains the new timestamp, and all other entries are
untouched. -/
theorem c8_rename_rollback (st : NState) (q new now : Str) (ns0 : NamespaceRec)
    (hget : get_namespace st q = some ns0)
    (hconf : st.namespaces.any (fun kv => kv.2.name = new && !(kv.1 == ns0.id)) = false)
    (hself : lookupKey st.namespaces ns0.id = some ns0) :
    (rename_namespace st q new now true).2
      = Except.error (strLit "Failed to rename namespace directory") ∧
    lookupKey (rename_namespace st q new now true).1.namespaces ns0.id
      = some ⟨ns0.id, ns0.name, ns0.description, ns0.created_at, now, ns0.project_ids⟩ ∧
    (∀ k, k ≠ ns0.id →
      lookupKey (rename_namespace st q new now true).1.namespaces k
        = lookupKey st.namespaces k) := by
  have hred : rename_namespace st q new now true
      = (⟨updateKey (updateKey st.namespaces ns0.id (fun r =>
            { r with name := new, updated_at := now })) ns0.id (fun r =>
            { r with name := ns0.name })⟩,
         Except.error (strLit "Failed to rename namespace directory")) := by
    unfold rename_namespace
    rw [hget]
    dsimp only
    rw [if_neg (by rw [hconf]; simp)]
    rfl
  rw [hred]
  refine ⟨rfl, ?_, ?_⟩
  · dsimp only
    rw [lookupKey_updateKey_self, lookupKey_updateKey_self, hself]
    rfl
  · intro k hk
    dsimp only
    rw [lookupKey_updateKey_ne _ _ _ _ hk, lookupKey_updateKey_ne _ _ _ _ hk]

/-- Claim C8 witness: the rollback leaves the old name with the new
timestamp at a concrete store. -/
theorem c8_witness :
    (rename_namespace ⟨[(strLit "n1",
        ⟨strLit "n1", strLit "alpha", [], strLit "t0", strLit "t0", []⟩)]⟩
        (strLit "alpha") (strLit "beta") (strLit "t1") true).2
      = Except.error (strLit "Failed to rename namespace directory") ∧
    lookupKey (rename_namespace ⟨[(strLit "n1",
        ⟨strLit "n1", strLit "alpha", [], strLit "t0", strLit "t0", []⟩)]⟩
        (strLit "alpha") (strLit "beta") (strLit "t1") true).1.namespaces
        (strLit "n1")
      = some ⟨strLit "n1", strLit "alpha", [], strLit "t0", strLit "t1", []⟩ :=
  ⟨(c8_rename_rollback ⟨[(strLit "n1",
      ⟨strLit "n1", strLit "alpha", [], strLit "t0", strLit "t0", []⟩)]⟩
      (strLit "alpha") (strLit "beta") (strLit "t1")
      ⟨strLit "n1", strLit "alpha", [], strLit "t0", strLit "t0", []⟩
      (by decide) (by decide) (by decide)).1,
   (c8_rename_rollback ⟨[(strLit "n1",
      ⟨strLit "n1", strLit "alpha", [], strLit "t0", strLit "t0", []⟩)]⟩
      (strLit "alpha") (strLit "beta") (strLit "t1")
      ⟨strLit "n1", strLit "alpha", [], strLit "t0", strLit "t0", []⟩
      (by decide) (by decide) (by decide)).2.1⟩

/-! ## Selector lemmas -/

theorem scanUp_sound (items : List RNode) : ∀ j k : Nat,
    scanUp items j = some k → isChatAt items k = true := by
  intro j
  induction j with
  | zero =>
    intro k h
    unfold scanUp at h
    by_cases h0 : isChatAt items 0 = true
    · rw [if_pos h0] at h
      simp at h
      rw [← h]
      exact h0
    · rw [if_neg h0] at h
      simp at h
  | succ j ih =>
    intro k h
    unfold scanUp at h
    by_cases h0 : isChatAt items (j + 1) = true
    · rw [if_pos h0] at h
      simp at h
      rw [← h]
      exact h0
    · rw [if_neg h0] at h
      exact ih k h

theorem scanUp_none (items : List RNode) : ∀ j : Nat,
    (∀ i, i ≤ j → isChatAt items i = false) → scanUp items j = none := by
  intro j
  induction j with
  | zero =>
    intro h
    unfold scanUp
    rw [if_neg (by rw [h 0 (by omega)]; simp)]
  | succ j ih =>
    intro h
    unfold scanUp
    rw [if_neg (by rw [h (j + 1) (by omega)]; simp)]
    exact ih (fun i hi => h i (by omega))

theorem firstChatOffset_cons_nonchat (n : RNode) (rest : List RNode)
    (hn : ¬ n = RNode.chatItem) :
    firstChatOffset (n :: rest) = (firstChatOffset rest).map (· + 1) := by
  cases n
  case chatItem => exact absurd rfl hn
  all_goals rfl

theorem isChatAt_cons_zero (n : RNode) (rest : List RNode) :
    isChatAt (n :: rest) 0 = (n == RNode.chatItem) := rfl

theorem isChatAt_cons_succ (n : RNode) (rest : List RNode) (i : Nat) :
    isChatAt (n :: rest) (i + 1) = isChatAt rest i := rfl

theorem firstChatOffset_first (items : List RNode) : ∀ f : Nat,
    firstChatOffset items = some f →
    isChatAt items f = true ∧ ∀ i, i < f → isChatAt items i = false := by
  induction items with
  | nil => intro f h; simp [firstChatOffset] at h
  | cons n rest ih =>
    intro f h
    by_cases hn : n = RNode.chatItem
    · subst hn
      have h' : (some 0 : Option Nat) = some f := h
      have hf : (0 : Nat) = f := by injection h'
      subst hf
      exact ⟨rfl, fun i hi => absurd hi (by omega)⟩
    · rw [firstChatOffset_cons_nonchat n rest hn] at h
      cases hrest : firstChatOffset rest with
      | none => rw [hrest] at h; simp at h
      | some f' =>
        rw [hrest] at h
        simp at h
        obtain ⟨hchat, hbefore⟩ := ih f' hrest
        subst h
        refine ⟨by rw [isChatAt_cons_succ]; exact hchat, ?_⟩
        intro i hi
        cases i with
        | zero =>
          rw [isChatAt_cons_zero]
          exact beq_eq_false_iff_ne.2 hn
        | succ i' =>
          rw [isChatAt_cons_succ]
          exact hbefore i' (by omega)

theorem resume_move_up_succ (items : List RNode) (i' : Nat) :
    resume_move_up items (i' + 1)
      = match scanUp items i' with | some j => j | none => i' + 1 := rfl

theorem resume_move_down_eq (items : List RNode) (i : Nat) :
    resume_move_down items i
      = match firstChatOffset (items.drop (i + 1)) with
        | some k => i + 1 + k
        | none => i := rfl

/-- Claim C3, as stated, is false for the `/list` selector: its `move_up`
and `move_down` step over every node kind without skipping headers, so the
cursor rests on namespace and project nodes.  One move-up from the
conversation row of `[namespace, conversation]` leaves the cursor on the
namespace node. -/
theorem c3_counterexample :
    list_move_up [LNode.nsNode, LNode.chatNode] 1 = 0 ∧
    [LNode.nsNode, LNode.chatNode].get? 0 = some LNode.nsNode := by decide

/-- Claim C3 (amended): in the `/resume` selector the cursor only ever
rests on chat rows — each move either lands on a chat row or leaves the
cursor unchanged, any event sequence started on a chat row stays on chat
rows, move-up at the first chat row and move-down past the last are no-ops
(clamped, no wraparound).  The `/list` selector does not skip namespace or
project nodes: its moves only clamp the cursor to the range of all items
(no-op at index 0 and at the last index), and any event sequence preserves
in-range positions. -/
theorem c3_selector_navigation :
    (∀ (items : List RNode) (i : Nat),
      resume_move_up items i = i ∨ isChatAt items (resume_move_up items i) = true) ∧
    (∀ (items : List RNode) (i : Nat),
      resume_move_down items i = i ∨ isChatAt items (resume_move_down items i) = true) ∧
    (∀ (items : List RNode) (i : Nat) (evs : List REvent),
      isChatAt items i = true → isChatAt items (resume_run items i evs) = true) ∧
    (∀ (items : List RNode) (f : Nat),
      firstChatOffset items = some f → resume_move_up items f = f) ∧
    (∀ (items : List RNode) (i : Nat),
      firstChatOffset (items.drop (i + 1)) = none → resume_move_down items i = i) ∧
    (∀ (items : List LNode) (i : Nat), i < items.length →
      list_move_up items i < items.length ∧ list_move_down items i < items.length) ∧
    (∀ items : List LNode, list_move_up items 0 = 0) ∧
    (∀ (items : List LNode) (i : Nat), i = items.length - 1 →
      list_move_down items i = i) ∧
    (∀ (items : List LNode) (i : Nat) (evs : List LEvent), i < items.length →
      list_run items i evs < items.length) := by
  have hup : ∀ (items : List RNode) (i : Nat),
      resume_move_up items i = i ∨ isChatAt items (resume_move_up items i) = true := by
    intro items i
    cases i with
    | zero => exact Or.inl rfl
    | succ i' =>
      rw [resume_move_up_succ]
      cases hs : scanUp items i' with
      | none => exact Or.inl rfl
      | some j => exact Or.inr (scanUp_sound items i' j hs)
  have hdown : ∀ (items : List RNode) (i : Nat),
      resume_move_down items i = i ∨ isChatAt items (resume_move_down items i) = true := by
    intro items i
    cases hs : firstChatOffset (items.drop (i + 1)) with
    | none =>
      refine Or.inl ?_
      rw [resume_move_down_eq, hs]
    | some k =>
      refine Or.inr ?_
      have hred : resume_move_down items i = i + 1 + k := by
        rw [resume_move_down_eq, hs]
      rw [hred]
      have hfc := (firstChatOffset_first _ k hs).1
      unfold isChatAt at hfc ⊢
      rw [List.get?_drop] at hfc
      exact hfc
  refine ⟨hup, hdown, ?_, ?_, ?_, ?_, ?_, ?_, ?_⟩
  · intro items i evs h
    induction evs generalizing i with
    | nil => exact h
    | cons e evs ih =>
      cases e with
      | up =>
        have hred : resume_run items i (REvent.up :: evs)
            = resume_run items (resume_move_up items i) evs := rfl
        rw [hred]
        rcases hup items i with he | he
        · rw [he]; exact ih i h
        · exact ih _ he
      | down =>
        have hred : resume_run items i (REvent.down :: evs)
            = resume_run items (resume_move_down items i) evs := rfl
        rw [hred]
        rcases hdown items i with he | he
        · rw [he]; exact ih i h
        · exact ih _ he
  · intro items f hf
    cases f with
    | zero => rfl
    | succ f' =>
      rw [resume_move_up_succ]
      rw [scanUp_none items f' (fun i hi =>
        (firstChatOffset_first items (f' + 1) hf).2 i (by omega))]
  · intro items i h
    rw [resume_move_down_eq, h]
  · intro items i hi
    unfold list_move_up list_move_down
    constructor
    · by_cases h0 : 0 < i
      · rw [if_pos h0]; omega
      · rw [if_neg h0]; omega
    · by_cases h0 : i < items.length - 1
      · rw [if_pos h0]; omega
      · rw [if_neg h0]; omega
  · intro items; rfl
  · intro items i h
    unfold list_move_down
    rw [if_neg (by omega)]
  · intro items i evs
    induction evs generalizing i with
    | nil => intro h; exact h
    | cons e evs ih =>
      intro h
      cases e with
      | up =>
        have hred : list_run items i (LEvent.up :: evs)
            = list_run items (list_move_up items i) evs := rfl
        rw [hred]
        refine ih _ ?_
        unfold list_move_up
        by_cases h0 : 0 < i
        · rw [if_pos h0]; omega
        · rw [if_neg h0]; omega
      | down =>
        have hred : list_run items i (LEvent.down :: evs)
            = list_run items (list_move_down items i) evs := rfl
        rw [hred]
        refine ih _ ?_
        unfold list_move_down
        by_cases h0 : i < items.length - 1
        · rw [if_pos h0]; omega
        · rw [if_neg h0]; omega

/-- Claim C3 witness: concrete `/resume` and `/list` navigation facts. -/
theorem c3_witness :
    isChatAt [RNode.nsHeader, RNode.projHeader, RNode.chatItem, RNode.chatItem]
      (resume_run [RNode.nsHeader, RNode.projHeader, RNode.chatItem, RNode.chatItem]
        2 [REvent.down, REvent.up, REvent.up]) = true ∧
    resume_move_up [RNode.nsHeader, RNode.projHeader, RNode.chatItem, RNode.chatItem] 2 = 2 ∧
    list_run [LNode.nsNode, LNode.chatNode] 1 [LEvent.down, LEvent.up, LEvent.up]
      < ([LNode.nsNode, LNode.chatNode] : List LNode).length :=
  ⟨c3_selector_navigation.2.2.1 [RNode.nsHeader, RNode.projHeader, RNode.chatItem,
      RNode.chatItem] 2 [REvent.down, REvent.up, REvent.up] (by decide),
   c3_selector_navigation.2.2.2.1 [RNode.nsHeader, RNode.projHeader, RNode.chatItem,
      RNode.chatItem] 2 (by decide),
   c3_selector_navigation.2.2.2.2.2.2.2.2 [LNode.nsNode, LNode.chatNode] 1
      [LEvent.down, LEvent.up, LEvent.up] (by decide)⟩

/-- Claim C4: the `/list` rename dispatch calls `chat_manager.rename_chat`,
but the `ChatManager` class defines no such method (while the project and
namespace managers do define their rename methods), so selecting rename on
a conversation raises AttributeError instead of returning a boolean. -/
theorem c4_rename_chat_missing :
    selectorChatRenameCallee ∉ chatManagerMethods ∧
    "rename_project" ∈ projectManagerMethods ∧
    "rename_namespace" ∈ namespaceManagerMethods ∧
    "delete_chat" ∈ chatManagerMethods := by decide
